import Mathlib

/-!
# Shallow embedding of the `skillforge` core (simulator, validator, session)

Strings from the Python source are modelled as `List Char` (`Str` below).
Character-class predicates (`\s`, `\w`, `str.lower`) are modelled on their
ASCII behaviour, which coincides with Python's on the ASCII inputs the
program manipulates.

Python `dict`s become association lists with in-place update (Python dicts
keep insertion position on update), Python `set`s become duplicate-free
lists with membership-guarded insertion.
-/

namespace Skillforge

abbrev Str := List Char

/-- ASCII model of Python's `str.isspace` / regex `\s` character class. -/
def isPySpace (c : Char) : Bool :=
  c = ' ' || c = '\t' || c = '\n' || c = '\r' || c = '\x0b' || c = '\x0c'

/-- ASCII model of regex `\w`: letters, digits, underscore. -/
def isWordChar (c : Char) : Bool :=
  ('a' ≤ c && c ≤ 'z') || ('A' ≤ c && c ≤ 'Z') || ('0' ≤ c && c ≤ '9') || c = '_'

/-- Drop leading Python-whitespace (the front half of `str.strip`). -/
def trimStart (l : Str) : Str := l.dropWhile isPySpace

/-- Drop trailing Python-whitespace (the back half of `str.strip`). -/
def trimEnd (l : Str) : Str := (l.reverse.dropWhile isPySpace).reverse

/-- Python `str.strip()` with no arguments. -/
def pstrip (l : Str) : Str := trimEnd (trimStart l)

/-- Python `str.lower()` (ASCII model). -/
def plower (l : Str) : Str := l.map Char.toLower

/-- Python `a.startswith(p)` for strings. -/
def pstarts (p l : Str) : Bool := decide (l.take p.length = p)

/-- Split a string at every character satisfying `p`; keeps empty pieces,
    mirroring Python `str.split(sep)` for a one-character separator. -/
def splitOnPred (p : Char → Bool) (l : Str) : List Str :=
  l.foldr
    (fun c acc =>
      if p c then [] :: acc
      else
        match acc with
        | [] => [[c]]
        | a :: as => (c :: a) :: as)
    [[]]

/-- Python `path.split("/")`. -/
def splitSlash (l : Str) : List Str := splitOnPred (fun c => c = '/') l

/-- Python `"/".join(parts)`. -/
def joinSlash (parts : List Str) : Str := List.intercalate ['/'] parts

/-- Python `str.split()` with no arguments: split on whitespace runs,
    discarding empty pieces. -/
def psplitWs (l : Str) : List Str :=
  (splitOnPred isPySpace l).filter (fun s => s ≠ [])

namespace VFS

/-- The segment-collapsing loop body of `VirtualFileSystem.normalize_path`:
    `..` pops (on a non-empty accumulator), empty and `.` segments are
    dropped, anything else is appended. -/
def collapseStep (acc : List Str) (part : Str) : List Str :=
  if part = ['.', '.'] then acc.dropLast
  else if part ≠ [] ∧ part ≠ ['.'] then acc ++ [part]
  else acc

/-- `return "/" + "/".join(parts) if parts else "/"`. -/
def mkAbs (parts : List Str) : Str :=
  if parts = [] then ['/'] else '/' :: joinSlash parts

end VFS

/-- State of `VirtualFileSystem` (`simulator.py`): `files` is a
    path-to-content dict, `directories` a set of path strings. -/
structure VirtualFileSystem where
  files : List (Str × Str)
  directories : List Str
  current_dir : Str
  deriving Repr, DecidableEq

namespace VFS

/-- `VirtualFileSystem.__init__`. -/
def init : VirtualFileSystem :=
  { files := []
    directories :=
      [['/'], "/home".toList, "/home/user".toList, "/tmp".toList]
    current_dir := "/home/user".toList }

/-- `VirtualFileSystem.normalize_path`.  A relative path is glued onto
    `current_dir`, then the `/`-separated segments are collapsed. -/
def normalize_path (cur : Str) (path : Str) : Str :=
  let p :=
    if path.take 1 = ['/'] then path
    else if cur = ['/'] then '/' :: path
    else cur ++ '/' :: path
  mkAbs ((splitSlash p).foldl collapseStep [])

/-- Dict insertion/update: Python dicts update in place and append new
    keys at the end. -/
def assocSet (l : List (Str × Str)) (k v : Str) : List (Str × Str) :=
  if l.any (fun e => e.1 = k) then
    l.map (fun e => if e.1 = k then (k, v) else e)
  else l ++ [(k, v)]

/-- Set insertion (`set.add`): no duplicates. -/
def setAdd (l : List Str) (x : Str) : List Str :=
  if x ∈ l then l else l ++ [x]

/-- The keys of the `files` dict. -/
def fileKeys (fs : VirtualFileSystem) : List Str := fs.files.map (fun e => e.1)

/-- The non-empty `/`-free segments of a path
    (`[q for q in p.split("/") if q]`). -/
def segsOf (p : Str) : List Str := (splitSlash p).filter (fun s => s ≠ [])

/-- `str(pathlib.PurePosixPath(p).parent)` for the normalized absolute
    paths on which the source calls it: drop the last segment
    (`PurePosixPath("/").parent` is `"/"` again). -/
def parentPath (p : Str) : Str := mkAbs (segsOf p).dropLast

/-- `VirtualFileSystem.exists`. -/
def existsPath (fs : VirtualFileSystem) (path : Str) : Bool :=
  let n := normalize_path fs.current_dir path
  n ∈ fileKeys fs || n ∈ fs.directories

/-- `VirtualFileSystem.is_file`. -/
def is_file (fs : VirtualFileSystem) (path : Str) : Bool :=
  normalize_path fs.current_dir path ∈ fileKeys fs

/-- `VirtualFileSystem.is_directory`. -/
def is_directory (fs : VirtualFileSystem) (path : Str) : Bool :=
  normalize_path fs.current_dir path ∈ fs.directories

/-- `VirtualFileSystem.read_file`; `none` models `FileNotFoundError`. -/
def read_file (fs : VirtualFileSystem) (path : Str) : Option Str :=
  let n := normalize_path fs.current_dir path
  (fs.files.find? (fun e => e.1 = n)).map (fun e => e.2)

/-- `VirtualFileSystem.write_file`: upsert the normalized path, adding the
    parent to `directories` if missing (the parent string is never empty). -/
def write_file (fs : VirtualFileSystem) (path content : Str) : VirtualFileSystem :=
  let n := normalize_path fs.current_dir path
  let parent := parentPath n
  let dirs :=
    if parent ≠ [] ∧ parent ∉ fs.directories then fs.directories ++ [parent]
    else fs.directories
  { fs with directories := dirs, files := assocSet fs.files n content }

/-- The ancestor-adding `while` loop of `create_directory`, expressed on the
    segment list of the current `parent`: the source repeatedly takes
    `str(Path(parent).parent)`, which on these normalized paths drops the
    last segment; it stops when the parent is already present or is `/`
    (`mkAbs [] = "/"`, and the parent string is never empty).  The `fuel`
    argument makes the recursion structural; it is called with
    `fuel = parts.length`, which the loop can never exhaust since each
    iteration shortens `parts` by one. -/
def addParentsAux : Nat → List Str → List Str → List Str
  | 0, dirs, _ => dirs
  | Nat.succ n, dirs, parts =>
    if parts = [] then dirs
    else if mkAbs parts ∈ dirs then dirs
    else addParentsAux n (dirs ++ [mkAbs parts]) parts.dropLast

def addParentsLoop (dirs : List Str) (parts : List Str) : List Str :=
  addParentsAux parts.length dirs parts

/-- `VirtualFileSystem.create_directory`. -/
def create_directory (fs : VirtualFileSystem) (path : Str) : VirtualFileSystem :=
  let n := normalize_path fs.current_dir path
  let dirs := setAdd fs.directories n
  { fs with directories := addParentsLoop dirs (segsOf n).dropLast }

/-- `VirtualFileSystem.touch`: create an empty file only when absent
    (note the recursive call re-normalizes the raw `path`, as the source
    does). -/
def touch (fs : VirtualFileSystem) (path : Str) : VirtualFileSystem :=
  let n := normalize_path fs.current_dir path
  if n ∈ fileKeys fs then fs else write_file fs path []

/-- Errors raised by `list_directory`. -/
inductive ListDirError where
  | fileNotFound
  | notADirectory
  deriving Repr, DecidableEq

/-- Python `sorted` comparison on strings: code-point lexicographic. -/
def strLe : Str → Str → Bool
  | [], _ => true
  | _ :: _, [] => false
  | a :: as, b :: bs => if a = b then strLe as bs else decide (a < b)

/-- Stable insertion into a sorted list (equal keys keep their order). -/
def insertSorted (x : Str) : List Str → List Str
  | [] => [x]
  | y :: ys => if strLe y x then y :: insertSorted x ys else x :: y :: ys

/-- Python `sorted(results)`: a stable sort by `strLe`. -/
def sortStrs (l : List Str) : List Str := l.foldr insertSorted []

/-- `VirtualFileSystem.list_directory`: direct children of a directory,
    drawn from `files` then `directories`, sorted. -/
def list_directory (fs : VirtualFileSystem) (path : Str) : Except ListDirError (List Str) :=
  let n := normalize_path fs.current_dir path
  if ¬ existsPath fs n then .error .fileNotFound
  else if ¬ is_directory fs n then .error .notADirectory
  else
    let pre := if n.getLast? = some '/' then n else n ++ ['/']
    let pre := if n = ['/'] then ['/'] else pre
    let fromFiles :=
      (fileKeys fs).filterMap (fun fp =>
        if pstarts pre fp ∧ '/' ∉ fp.drop pre.length then some (fp.drop pre.length)
        else none)
    let fromDirs :=
      fs.directories.filterMap (fun dp =>
        if dp ≠ n ∧ pstarts pre dp ∧ '/' ∉ dp.drop pre.length then
          some (dp.drop pre.length)
        else none)
    .ok (sortStrs (fromFiles ++ fromDirs))

/-- A segment kept by `normalize_path`'s loop: non-empty, not `.`, not `..`,
    and slash-free. -/
def goodSeg (s : Str) : Prop :=
  s ≠ [] ∧ s ≠ ['.'] ∧ s ≠ ['.', '.'] ∧ ∀ c ∈ s, (decide (c = '/') : Bool) = false

/-- The collapsed segment list computed by `normalize_path`. -/
def normSegs (cur path : Str) : List Str :=
  (splitSlash
    (if path.take 1 = ['/'] then path
     else if cur = ['/'] then '/' :: path
     else cur ++ '/' :: path)).foldl collapseStep []

/-! ### Normalized paths and their segments -/
def goodSegs (P : List Str) : Prop := ∀ s ∈ P, goodSeg s

/-! ### Filesystem operation sequences (claim C1) -/
/-- The `VirtualFileSystem` operations quantified over in claim C1. -/
inductive FSOp where
  | write (path content : Str)
  | mkdirOp (path : Str)
  | touchOp (path : Str)
  | readOp (path : Str)
  | listOp (path : Str)
  deriving Repr, DecidableEq

/-- State effect of one operation (`read_file` and `list_directory` are
    pure queries and leave the state unchanged). -/
def applyOp (fs : VirtualFileSystem) : FSOp → VirtualFileSystem
  | .write p c => write_file fs p c
  | .mkdirOp p => create_directory fs p
  | .touchOp p => touch fs p
  | .readOp _ => fs
  | .listOp _ => fs

def runOps (fs : VirtualFileSystem) (ops : List FSOp) : VirtualFileSystem :=
  ops.foldl applyOp fs

/-- The invariant of claim C1: no path is both a file and a directory. -/
def disjointFS (fs : VirtualFileSystem) : Prop :=
  ∀ p, p ∈ fileKeys fs → p ∉ fs.directories

/-- Guard under which one operation preserves `disjointFS`: a write or
    touch must not target an existing directory or the root, and its parent
    must not be an existing file; a `create_directory` must not land on an
    existing file, nor may any ancestor it creates. -/
def stepOK (fs : VirtualFileSystem) : FSOp → Prop
  | .write p _ =>
    normalize_path fs.current_dir p ∉ fs.directories ∧
      normalize_path fs.current_dir p ≠ ['/'] ∧
      parentPath (normalize_path fs.current_dir p) ∉ fileKeys fs
  | .touchOp p =>
    normalize_path fs.current_dir p ∈ fileKeys fs ∨
      (normalize_path fs.current_dir p ∉ fs.directories ∧
        normalize_path fs.current_dir p ≠ ['/'] ∧
        parentPath (normalize_path fs.current_dir p) ∉ fileKeys fs)
  | .mkdirOp p =>
    ∀ k ≤ (segsOf (normalize_path fs.current_dir p)).length,
      mkAbs ((segsOf (normalize_path fs.current_dir p)).take k) ∉ fileKeys fs
  | .readOp _ => True
  | .listOp _ => True

instance instDecStepOK (fs : VirtualFileSystem) (op : FSOp) :
    Decidable (stepOK fs op) := by
  cases op <;> · simp only [stepOK]; infer_instance

/-- Every step of the sequence is guarded, evaluated in the state in which
    it executes. -/
def safeOps (fs : VirtualFileSystem) : List FSOp → Prop
  | [] => True
  | op :: ops => stepOK fs op ∧ safeOps (applyOp fs op) ops

instance instDecSafeOps (fs : VirtualFileSystem) :
    (ops : List FSOp) → Decidable (safeOps fs ops)
  | [] => by simp only [safeOps]; infer_instance
  | op :: ops =>
    have := instDecSafeOps (applyOp fs op) ops
    by simp only [safeOps]; infer_instance

end VFS

/-! ## Exercise model (`models/lesson.py`) and validator (`core/validator.py`) -/
/-- `Exercise` (pydantic model). -/
structure Exercise where
  id : Str
  instruction : Str
  expected_output : Option Str
  hints : List Str
  deriving Repr, DecidableEq

inductive ValidationStatus where
  | correct
  | incorrect
  | partialMatch
  deriving Repr, DecidableEq

/-- The `details["match_type"]` / `details["source"]` tag of a
    `ValidationResult`. -/
inductive MatchType where
  | exact
  | caseInsensitive
  | normalizedWhitespace
  | contains
  | subset
  | noExpectedOutput
  | noMatch
  deriving Repr, DecidableEq

/-- `ValidationResult`.  The `score` float only ever takes the literal
    values 0.0 / 0.5 / 0.7 / 1.0 on the embedded paths and no arithmetic
    is performed on it, so it is modelled exactly as a rational. -/
structure ValidationResult where
  status : ValidationStatus
  score : ℚ
  feedback : Str
  hints : List Str
  matchType : Option MatchType
  deriving DecidableEq

namespace Validator

def fbNoAnswer : Str := "No answer provided. Please try again.".toList

def fbCorrect : Str := "Correct! Well done.".toList

def fbContains : Str :=
  ("Your answer contains the expected output, " ++
    "but includes extra content. Try to be more precise.").toList

def fbSubset : Str :=
  ("You're on the right track, " ++ "but your answer is incomplete.").toList

def fbNoExpected : Str :=
  ("Answer received. Unable to fully validate " ++
    "without expected output defined.").toList

def fbNoMatch : Str :=
  ("That's not quite right. Review the exercise " ++
    "instructions and try again.").toList

def fallbackHint : Str :=
  "Review the exercise instructions carefully and try again.".toList

/-- Oracle for `_validate_with_llm`: the external LLM round-trip plus
    response parsing (including its exception fallback) is modelled as an
    uninterpreted function of the exercise, answer and context. -/
def LLMValidate := Exercise → Str → Option Str → ValidationResult

/-- Oracle for `_generate_llm_hint`: external call, trimmed response and
    exception fallback folded into one uninterpreted function. -/
def LLMHint := Exercise → Str → Int → Str

/-- `ExerciseValidator._get_exercise_hints`: one hint at the given index,
    or nothing. -/
def get_exercise_hints (ex : Exercise) (hint_index : Nat) : List Str :=
  if ex.hints = [] then []
  else if ex.hints.length ≤ hint_index then []
  else
    match ex.hints.get? hint_index with
    | some h => [h]
    | none => []

/-- Python `" ".join(s.split())`: whitespace-run normalization. -/
def wsNormalize (s : Str) : Str := List.intercalate [' '] (psplitWs s)

/-- Python substring test `needle in hay`. -/
def isSubstr (needle : Str) : Str → Bool
  | [] => pstarts needle []
  | c :: rest => pstarts needle (c :: rest) || isSubstr needle rest

/-- `ExerciseValidator._validate_with_pattern`.  `user_answer` arrives
    already stripped by `validate`. -/
def validate_with_pattern (ex : Exercise) (user_answer : Str) :
    Option ValidationResult :=
  match ex.expected_output with
  | none => none
  | some expected =>
    let es := pstrip expected
    if user_answer = es then
      some ⟨.correct, 1, fbCorrect, [], some .exact⟩
    else if plower user_answer = plower es then
      some ⟨.correct, 1, fbCorrect, [], some .caseInsensitive⟩
    else if wsNormalize user_answer = wsNormalize es then
      some ⟨.correct, 1, fbCorrect, [], some .normalizedWhitespace⟩
    else if isSubstr (plower es) (plower user_answer) then
      some ⟨.partialMatch, 7/10, fbContains, get_exercise_hints ex 0,
        some .contains⟩
    else if isSubstr (plower user_answer) (plower es) then
      some ⟨.partialMatch, 1/2, fbSubset, get_exercise_hints ex 0,
        some .subset⟩
    else none

/-- `ExerciseValidator._validate_basic` (the answer itself is unused by
    both branches, as in the source). -/
def validate_basic (ex : Exercise) (_user_answer : Str) : ValidationResult :=
  match ex.expected_output with
  | none => ⟨.partialMatch, 1/2, fbNoExpected, [], some .noExpectedOutput⟩
  | some _ => ⟨.incorrect, 0, fbNoMatch, get_exercise_hints ex 0, some .noMatch⟩

/-- `ExerciseValidator.validate`.  `llm = none` models a validator built
    without an LLM client. -/
def validate (llm : Option LLMValidate) (ex : Exercise) (user_answer0 : Str)
    (context : Option Str) : ValidationResult :=
  let user := pstrip user_answer0
  if user = [] then
    ⟨.incorrect, 0, fbNoAnswer, get_exercise_hints ex 0, none⟩
  else
    let pat :=
      if (match ex.expected_output with | none => false | some e => e ≠ []) then
        validate_with_pattern ex user
      else none
    match pat with
    | some r => r
    | none =>
      match llm with
      | some f => f ex user context
      | none => validate_basic ex user

/-- Python list indexing with negative-index semantics; `none` models an
    `IndexError`. -/
def pyIndex (l : List Str) (i : Int) : Option Str :=
  if 0 ≤ i then l.get? i.toNat
  else if (-i).toNat ≤ l.length then l.get? (l.length - (-i).toNat)
  else none

/-- `ExerciseValidator.generate_hint`.  The result is `none` exactly when
    the Python code would raise `IndexError` on `hints[attempt_number - 1]`. -/
def generate_hint (llmh : Option LLMHint) (ex : Exercise) (user_answer : Str)
    (attempt_number : Int) : Option Str :=
  if ex.hints ≠ [] ∧ attempt_number ≤ (ex.hints.length : Int) then
    pyIndex ex.hints (attempt_number - 1)
  else
    some
      (match llmh with
       | some f => f ex user_answer attempt_number
       | none => fallbackHint)

end Validator

/-! ## Command simulator (`core/simulator.py`) -/
/-- Values stored in a `SimulationResult.state_changes` dict. -/
inductive SCVal where
  | str (s : Str)
  | boolean (b : Bool)
  deriving Repr, DecidableEq

/-- `SimulationResult`. -/
structure SimulationResult where
  success : Bool
  output : Str
  error : Option Str
  exit_code : Int
  state_changes : List (Str × SCVal)
  deriving Repr, DecidableEq

/-- State of `CommandSimulator`.  `llmPresent` records whether an
    `llm_client` was supplied at construction. -/
structure CommandSimulator where
  llmPresent : Bool
  filesystem : VirtualFileSystem
  environment : List (Str × Str)
  python_imports : List Str
  python_variables : List (Str × Str)
  deriving Repr, DecidableEq

namespace Sim

def initEnv : List (Str × Str) :=
  [("HOME".toList, "/home/user".toList),
   ("USER".toList, "user".toList),
   ("PATH".toList, "/usr/local/bin:/usr/bin:/bin".toList)]

/-- `CommandSimulator.__init__`. -/
def initSim (llm : Bool) : CommandSimulator :=
  { llmPresent := llm
    filesystem := VFS.init
    environment := initEnv
    python_imports := []
    python_variables := [] }

/-- `CommandSimulator.reset`: everything reinitialized, the LLM client kept. -/
def reset (sim : CommandSimulator) : CommandSimulator := initSim sim.llmPresent

/-- `dict.get(key, default)` on an association list. -/
def envGet (env : List (Str × Str)) (k d : Str) : Str :=
  ((env.find? (fun e => e.1 = k)).map (fun e => e.2)).getD d

/-- Successful result with an output and no state changes. -/
def okOut (output : Str) : SimulationResult :=
  { success := true, output := output, error := none, exit_code := 0,
    state_changes := [] }

/-- Failed result with an error message. -/
def failErr (msg : Str) (code : Int) : SimulationResult :=
  { success := false, output := [], error := some msg, exit_code := code,
    state_changes := [] }

/-- Python `" ".join(args)`. -/
def joinSpace (args : List Str) : Str := List.intercalate [' '] args

/-- `_simulate_echo`. -/
def simEcho (args : List Str) : SimulationResult := okOut (joinSpace args)

/-- `_simulate_ls`. -/
def simLs (sim : CommandSimulator) (args : List Str) : SimulationResult :=
  let path := args.headD ".".toList
  match VFS.list_directory sim.filesystem path with
  | .ok files => okOut (List.intercalate ['\n'] files)
  | .error .fileNotFound => failErr ("No such directory: ".toList ++ path) 1
  | .error .notADirectory => failErr ("Not a directory: ".toList ++ path) 1

/-- `_simulate_cat`. -/
def simCat (sim : CommandSimulator) (args : List Str) : SimulationResult :=
  match args with
  | [] => failErr "cat: missing file operand".toList 1
  | path :: _ =>
    match VFS.read_file sim.filesystem path with
    | some content => okOut content
    | none => failErr ("No such file: ".toList ++ path) 1

/-- `_simulate_mkdir`. -/
def simMkdir (sim : CommandSimulator) (args : List Str) :
    SimulationResult × CommandSimulator :=
  match args with
  | [] => (failErr "mkdir: missing operand".toList 1, sim)
  | path :: _ =>
    ({ success := true, output := [], error := none, exit_code := 0,
       state_changes := [("created_directory".toList, .str path)] },
     { sim with filesystem := VFS.create_directory sim.filesystem path })

/-- `_simulate_touch`. -/
def simTouch (sim : CommandSimulator) (args : List Str) :
    SimulationResult × CommandSimulator :=
  match args with
  | [] => (failErr "touch: missing file operand".toList 1, sim)
  | path :: _ =>
    ({ success := true, output := [], error := none, exit_code := 0,
       state_changes := [("created_file".toList, .str path)] },
     { sim with filesystem := VFS.touch sim.filesystem path })

/-- `_simulate_cd`. -/
def simCd (sim : CommandSimulator) (args : List Str) :
    SimulationResult × CommandSimulator :=
  match args with
  | [] =>
    (okOut [],
     { sim with filesystem :=
        { sim.filesystem with
            current_dir := envGet sim.environment "HOME".toList "/home/user".toList } })
  | path :: _ =>
    let norm := VFS.normalize_path sim.filesystem.current_dir path
    if ¬ VFS.is_directory sim.filesystem norm then
      (failErr ("cd: ".toList ++ path ++ ": No such file or directory".toList) 1, sim)
    else
      ({ success := true, output := [], error := none, exit_code := 0,
         state_changes := [("current_directory".toList, .str norm)] },
       { sim with filesystem := { sim.filesystem with current_dir := norm } })

/-- `_simulate_pwd`. -/
def simPwd (sim : CommandSimulator) : SimulationResult :=
  okOut sim.filesystem.current_dir

/-- `_simulate_with_llm` when no client is configured; with a client the
    external call plus response parsing is an oracle (`llmRes`). -/
def llmFallback (sim : CommandSimulator) (command : Str)
    (llmRes : SimulationResult) : SimulationResult :=
  if sim.llmPresent then llmRes
  else failErr ("Unknown command: ".toList ++ command) 127

/-! ### The `_is_python_code` regex heuristic

Each of the six `re.match` patterns is compiled by hand.  `\s` and `\w`
are disjoint character classes and the literals that follow greedy
runs start with characters outside the class being repeated, so greedy
matching needs no backtracking — except after `\s*` before `.+`, where
`.` (any char but newline) overlaps `\s`; `dotPlusAfterWsStar` captures
the exact backtracking condition there. -/
/-- Does `\s*.+` match `r` (anchored at the start, trailing text free)?
    True iff some position inside the maximal whitespace prefix, or just
    after it, holds a non-newline character. -/
def dotPlusAfterWsStar (r : Str) : Bool :=
  decide (r.dropWhile isPySpace ≠ []) ||
    (r.takeWhile isPySpace).any (fun c => c ≠ '\n')

/-- `^import\s+\w+`. -/
def matchImport (c : Str) : Bool :=
  pstarts "import".toList c &&
    (let r := c.drop 6
     decide (r.takeWhile isPySpace ≠ []) &&
       match r.dropWhile isPySpace with
       | d :: _ => isWordChar d
       | [] => false)

/-- `^from\s+\w+\s+import`. -/
def matchFromImport (c : Str) : Bool :=
  pstarts "from".toList c &&
    (let r := c.drop 4
     decide (r.takeWhile isPySpace ≠ []) &&
       (let r1 := r.dropWhile isPySpace
        let w := r1.takeWhile isWordChar
        decide (w ≠ []) &&
          (let r2 := r1.drop w.length
           decide (r2.takeWhile isPySpace ≠ []) &&
             pstarts "import".toList (r2.dropWhile isPySpace))))

/-- `^\w+\s*=\s*.+`. -/
def matchAssign (c : Str) : Bool :=
  let w := c.takeWhile isWordChar
  decide (w ≠ []) &&
    match (c.drop w.length).dropWhile isPySpace with
    | '=' :: r2 => dotPlusAfterWsStar r2
    | _ => false

/-- `^def\s+\w+\(`. -/
def matchDef (c : Str) : Bool :=
  pstarts "def".toList c &&
    (let r := c.drop 3
     decide (r.takeWhile isPySpace ≠ []) &&
       (let r1 := r.dropWhile isPySpace
        let w := r1.takeWhile isWordChar
        decide (w ≠ []) && pstarts "(".toList (r1.drop w.length)))

/-- `^class\s+\w+`. -/
def matchClass (c : Str) : Bool :=
  pstarts "class".toList c &&
    (let r := c.drop 5
     decide (r.takeWhile isPySpace ≠ []) &&
       match r.dropWhile isPySpace with
       | d :: _ => isWordChar d
       | [] => false)

/-- `CommandSimulator._is_python_code`: any of the six patterns matches
    (`^print\(` is a plain literal test). -/
def isPythonCode (command : Str) : Bool :=
  matchImport command || matchFromImport command || matchAssign command ||
    pstarts "print(".toList command || matchDef command || matchClass command

/-! ### Python-code simulation -/
/-- All-occurrence string replacement (`str.replace`), with fuel equal to
    the input length so the recursion is structural; each step consumes at
    least one character, so the fuel cannot run out. -/
def replaceAllAux (pat : Str) : Nat → Str → Str
  | 0, l => l
  | _ + 1, [] => []
  | n + 1, c :: rest =>
    if pat ≠ [] ∧ pstarts pat (c :: rest) then
      replaceAllAux pat n ((c :: rest).drop pat.length)
    else c :: replaceAllAux pat n rest

def replaceAll (pat l : Str) : Str := replaceAllAux pat l.length l

/-- The lazy scan of `print\(["\'](.+?)["\']\)`: grow the group one
    non-newline character at a time, stopping at the first position
    followed by a quote and `)`. -/
def printScan (acc : Str) : Str → Option Str
  | [] => none
  | c :: rest =>
    if c = '\n' then none
    else
      match rest with
      | q :: ')' :: _ =>
        if q = '"' ∨ q = '\'' then some (acc ++ [c]) else printScan (acc ++ [c]) rest
      | _ => printScan (acc ++ [c]) rest

/-- `re.match(r'print\(["\'](.+?)["\']\)', code)`: the captured group, if
    the pattern matches. -/
def printGroup (code : Str) : Option Str :=
  if pstarts "print(".toList code then
    match code.drop 6 with
    | q :: rest => if q = '"' ∨ q = '\'' then printScan [] rest else none
    | [] => none
  else none

/-- `re.match(r"(\w+)\s*=\s*(.+)", code)`: the two captured groups.  The
    `\s*` before `.+` backtracks when everything after `=` is whitespace:
    the group is then the last non-newline (whitespace) character. -/
def assignGroups (code : Str) : Option (Str × Str) :=
  let w := code.takeWhile isWordChar
  if w = [] then none
  else
    match (code.drop w.length).dropWhile isPySpace with
    | '=' :: r2 =>
      let r3 := r2.dropWhile isPySpace
      if r3 ≠ [] then some (w, r3.takeWhile (fun c => c ≠ '\n'))
      else
        match r2.reverse.dropWhile (fun c => c = '\n') with
        | [] => none
        | c :: _ => some (w, [c])
    | _ => none

/-- First element of a split (`split()[0]` / `split(".")[0]`); the callers
    establish that the list is non-empty, so the default is never read. -/
def headDstr (l : List Str) : Str := l.headD []

/-- `_simulate_python_import`.  For `import …` the module is
    `code.replace("import ", "").split()[0].split(".")[0]`; for `from …`
    it is `code.split()[1].split(".")[0]`.  `code` is stripped, which
    makes both indexings safe (the final character always survives). -/
def simPythonImport (sim : CommandSimulator) (code : Str) :
    SimulationResult × CommandSimulator :=
  if pstarts "import ".toList code then
    let module :=
      headDstr (splitOnPred (fun c => c = '.')
        (headDstr (psplitWs (replaceAll "import ".toList code))))
    ({ success := true, output := [], error := none, exit_code := 0,
       state_changes := [("python_import".toList, .str module)] },
     { sim with python_imports := VFS.setAdd sim.python_imports module })
  else if pstarts "from ".toList code then
    let module :=
      headDstr (splitOnPred (fun c => c = '.') ((psplitWs code).getD 1 []))
    ({ success := true, output := [], error := none, exit_code := 0,
       state_changes := [("python_import".toList, .str module)] },
     { sim with python_imports := VFS.setAdd sim.python_imports module })
  else (failErr "Invalid import syntax".toList 1, sim)

/-- `_simulate_python_code`. -/
def simPythonCode (sim : CommandSimulator) (code0 : Str)
    (llmRes : SimulationResult) : SimulationResult × CommandSimulator :=
  let code := pstrip code0
  if pstarts "import ".toList code ∨ pstarts "from ".toList code then
    simPythonImport sim code
  else
    match printGroup code with
    | some out => (okOut out, sim)
    | none =>
      match assignGroups code with
      | some (name, value) =>
        ({ success := true, output := [], error := none, exit_code := 0,
           state_changes := [("python_variable".toList, .str name)] },
         { sim with python_variables := VFS.assocSet sim.python_variables name value })
      | none => (llmFallback sim code llmRes, sim)

/-- Python `str.endswith`. -/
def pends (s l : Str) : Bool := pstarts s.reverse l.reverse

/-- `_simulate_python_command`. -/
def simPythonCmd (sim : CommandSimulator) (args : List Str)
    (llmRes : SimulationResult) : SimulationResult × CommandSimulator :=
  match args with
  | [] =>
    (okOut ("Python 3.9.0\nType 'help' for more information.").toList, sim)
  | a0 :: rest =>
    if a0 = "-c".toList ∧ rest ≠ [] then
      simPythonCode sim (rest.headD []) llmRes
    else if pends ".py".toList a0 then
      match VFS.read_file sim.filesystem a0 with
      | some code => simPythonCode sim code llmRes
      | none =>
        (failErr ("python: can't open file '".toList ++ a0 ++
          "': ".toList ++ "[Errno 2] No such file or directory".toList) 2, sim)
    else
      (llmFallback sim ("python ".toList ++ joinSpace args) llmRes, sim)

/-- `_simulate_pip`. -/
def simPip (args : List Str) : SimulationResult :=
  match args with
  | [] =>
    okOut ("Usage: pip <command> [options]\n\n" ++
      "Commands:\n  install   Install packages\n" ++
      "  list      List installed packages").toList
  | cmd :: rest =>
    if cmd = "install".toList then
      match rest with
      | [] =>
        failErr "ERROR: You must give at least one requirement to install".toList 1
      | pkg :: _ =>
        { success := true,
          output := "Successfully installed ".toList ++ pkg,
          error := none, exit_code := 0,
          state_changes := [("installed_package".toList, .str pkg)] }
    else if cmd = "list".toList then
      okOut ("Package    Version\n---------- -------\npip        24.0").toList
    else
      failErr ("ERROR: unknown command '".toList ++ cmd ++ "'".toList) 1

/-- Last element of a split (`split("/")[-1]`); splits are never empty. -/
def lastDstr (l : List Str) : Str := (l.getLast?).getD []

/-- `_simulate_git`. -/
def simGit (args : List Str) : SimulationResult :=
  match args with
  | [] => okOut "usage: git [--version] [--help] <command> [<args>]".toList
  | cmd :: rest =>
    if cmd = "init".toList then
      { success := true,
        output := "Initialized empty Git repository in .git/".toList,
        error := none, exit_code := 0,
        state_changes := [("git_initialized".toList, .boolean true)] }
    else if cmd = "status".toList then
      okOut "On branch main\nnothing to commit, working tree clean".toList
    else if cmd = "clone".toList then
      match rest with
      | [] => failErr "fatal: You must specify a repository to clone.".toList 128
      | repo :: _ =>
        { success := true,
          output := "Cloning into '".toList ++
            replaceAll ".git".toList
              (lastDstr (splitOnPred (fun c => c = '/') repo)) ++
            "'...".toList,
          error := none, exit_code := 0,
          state_changes := [("git_cloned".toList, .str repo)] }
    else
      okOut ("git ".toList ++ cmd ++ " completed successfully".toList)

/-- `_simulate_docker`. -/
def simDocker (args : List Str) : SimulationResult :=
  match args with
  | [] =>
    okOut ("Usage: docker [OPTIONS] COMMAND\n\n" ++
      "A self-sufficient runtime for containers").toList
  | cmd :: rest =>
    if cmd = "run".toList then
      let image := if rest ≠ [] then lastDstr (cmd :: rest) else "image".toList
      { success := true,
        output := "Running container from ".toList ++ image ++ "...".toList,
        error := none, exit_code := 0,
        state_changes := [("docker_container_started".toList, .str image)] }
    else if cmd = "ps".toList then
      okOut "CONTAINER ID   IMAGE     COMMAND   CREATED   STATUS   PORTS".toList
    else if cmd = "build".toList then
      { success := true,
        output := "Successfully built docker image".toList,
        error := none, exit_code := 0,
        state_changes := [("docker_image_built".toList, .boolean true)] }
    else
      okOut ("docker ".toList ++ cmd ++ " completed successfully".toList)

/-- `_simulate_kubectl`. -/
def simKubectl (args : List Str) : SimulationResult :=
  match args with
  | [] => okOut "kubectl controls the Kubernetes cluster manager.".toList
  | cmd :: rest =>
    if cmd = "get".toList then
      let resource := rest.headD "pods".toList
      okOut ("NAME                READY   STATUS    RESTARTS   AGE\n".toList ++
        resource ++ "-sample   1/1     Running   0          10s".toList)
    else if cmd = "apply".toList then
      okOut "resource created/updated successfully".toList
    else
      okOut ("kubectl ".toList ++ cmd ++ " completed successfully".toList)

/-- One interaction with `CommandSimulator.simulate`: the raw command, the
    outcome of the stdlib call `shlex.split(command)` (an oracle;
    `.error` models `ValueError`), and the oracle result of the LLM
    fallback round-trip, used only when an LLM client is present. -/
structure SimInput where
  cmd : Str
  parse : Except Unit (List Str)
  llmRes : SimulationResult
  deriving Repr

/-- The first tokens handled by `simulate`'s dispatch chain. -/
def dispatchTable : List Str :=
  ["echo".toList, "ls".toList, "cat".toList, "mkdir".toList, "touch".toList,
   "cd".toList, "pwd".toList, "python".toList, "python3".toList,
   "pip".toList, "pip3".toList, "git".toList, "docker".toList,
   "kubectl".toList]

/-- `CommandSimulator.simulate`. -/
def simulate (sim : CommandSimulator) (inp : SimInput) :
    SimulationResult × CommandSimulator :=
  let command := pstrip inp.cmd
  if command = [] then (okOut [], sim)
  else
    match inp.parse with
    | .error _ =>
      (failErr ("Invalid command syntax: ".toList ++ command) 1, sim)
    | .ok [] => (okOut [], sim)
    | .ok (cmd :: args) =>
      if cmd = "echo".toList then (simEcho args, sim)
      else if cmd = "ls".toList then (simLs sim args, sim)
      else if cmd = "cat".toList then (simCat sim args, sim)
      else if cmd = "mkdir".toList then simMkdir sim args
      else if cmd = "touch".toList then simTouch sim args
      else if cmd = "cd".toList then simCd sim args
      else if cmd = "pwd".toList then (simPwd sim, sim)
      else if cmd = "python".toList ∨ cmd = "python3".toList then
        simPythonCmd sim args inp.llmRes
      else if cmd = "pip".toList ∨ cmd = "pip3".toList then (simPip args, sim)
      else if cmd = "git".toList then (simGit args, sim)
      else if cmd = "docker".toList then (simDocker args, sim)
      else if cmd = "kubectl".toList then (simKubectl args, sim)
      else if isPythonCode command then simPythonCode sim command inp.llmRes
      else (llmFallback sim command inp.llmRes, sim)

/-- A sequence of `simulate` calls, threading the simulator state. -/
def runSim (sim : CommandSimulator) (inputs : List SimInput) : CommandSimulator :=
  inputs.foldl (fun s inp => (simulate s inp).2) sim

end Sim

/-! ## Progress and session models (`models/progress.py`, `models/session.py`,
`models/lesson.py`, `models/course.py`)

Timestamps carry no information any claim depends on; `datetime.now()`
values are modelled as `some ()` in `Option Unit` fields (and mandatory
timestamps are dropped). -/
inductive ProgressStatus where
  | not_started
  | in_progress
  | completed
  | failed
  deriving Repr, DecidableEq

inductive SessionState where
  | active
  | paused
  | completed
  | abandoned
  deriving Repr, DecidableEq

structure ExerciseProgress where
  exercise_id : Str
  status : ProgressStatus
  attempts : Nat
  user_answer : Option Str
  completed_at : Option Unit
  deriving Repr, DecidableEq

structure LessonProgress where
  lesson_id : Str
  status : ProgressStatus
  exercise_progress : List ExerciseProgress
  started_at : Option Unit
  completed_at : Option Unit
  deriving Repr, DecidableEq

structure CourseProgress where
  course_id : Str
  user_id : Str
  status : ProgressStatus
  lesson_progress : List LessonProgress
  current_lesson_index : Nat
  started_at : Option Unit
  completed_at : Option Unit
  deriving Repr, DecidableEq

structure Lesson where
  id : Str
  title : Str
  objectives : List Str
  exercises : List Exercise
  deriving Repr, DecidableEq

inductive Difficulty where
  | beginner
  | intermediate
  | advanced
  deriving Repr, DecidableEq

structure Course where
  id : Str
  topic : Str
  description : Str
  difficulty : Difficulty
  lessons : List Lesson
  deriving Repr, DecidableEq

structure LearningSession where
  session_id : Str
  course : Course
  progress : CourseProgress
  state : SessionState
  current_lesson_id : Option Str
  current_exercise_id : Option Str
  paused_at : Option Unit
  completed_at : Option Unit
  deriving Repr, DecidableEq

namespace Session

/-- `CourseProgress.is_completed`. -/
def isCompletedC (p : CourseProgress) : Bool :=
  decide (p.lesson_progress ≠ []) &&
    p.lesson_progress.all (fun lp => lp.status = ProgressStatus.completed)

/-- Replace the element at an index (identity when out of range; the
    runners below only call it at indices they have just read). -/
def modifyAt : List α → Nat → (α → α) → List α
  | [], _, _ => []
  | x :: xs, 0, f => f x :: xs
  | x :: xs, n + 1, f => x :: modifyAt xs n f

/-- Index of the first list element satisfying `pred` (the linear search
    of `CourseProgress.get_lesson_progress`). -/
def findFirstIdx (pred : α → Bool) : List α → Option Nat
  | [] => none
  | a :: as => if pred a then some 0 else (findFirstIdx pred as).map (· + 1)

/-- `CourseProgress.mark_lesson_complete`: the first lesson progress with
    the given id (if any) is marked completed. -/
def markLessonComplete (p : CourseProgress) (lid : Str) : CourseProgress :=
  match findFirstIdx (fun lp => lp.lesson_id = lid) p.lesson_progress with
  | some i =>
    let lps := modifyAt p.lesson_progress i
      (fun lp => { lp with status := .completed, completed_at := some () })
    { p with lesson_progress := lps }
  | none => p

/-- `LearningSession.pause`. -/
def pauseS (s : LearningSession) : LearningSession :=
  { s with state := .paused, paused_at := some () }

/-- `LearningSession.complete`. -/
def completeS (s : LearningSession) : LearningSession :=
  { s with state := .completed, completed_at := some () }

/-- A fresh `ExerciseProgress` record (`CourseProgress` initialisation). -/
def freshEP (e : Exercise) : ExerciseProgress :=
  { exercise_id := e.id
    status := .not_started
    attempts := 0
    user_answer := none
    completed_at := none }

/-- A fresh `LessonProgress` record (`CourseProgress` initialisation). -/
def freshLP (l : Lesson) : LessonProgress :=
  { lesson_id := l.id
    status := .not_started
    exercise_progress := l.exercises.map freshEP
    started_at := none
    completed_at := none }

/-- `SessionManager.create_new_session`: index-aligned fresh progress,
    everything `not_started`.  `sid` stands in for the generated UUID. -/
def newSession (course : Course) (sid : Str) : LearningSession :=
  { session_id := sid
    course := course
    progress :=
      { course_id := course.id
        user_id := "default".toList
        status := .not_started
        lesson_progress := course.lessons.map freshLP
        current_lesson_index := 0
        started_at := none
        completed_at := none }
    state := .active
    current_lesson_id :=
      match course.lessons with
      | [] => none
      | l :: _ => some l.id
    current_exercise_id :=
      match course.lessons with
      | [] => none
      | l :: _ =>
        match l.exercises with
        | [] => none
        | e :: _ => some e.id
    paused_at := none
    completed_at := none }

/-- Mutable state of a running `SessionManager`.  `saved` records the
    successive `_save_progress` snapshots (newest first); writing the
    session JSON to `<data_dir>/sessions/<id>.json` is modelled as pushing
    the current session value. -/
structure SMState where
  session : LearningSession
  simulator : CommandSimulator
  hint_count : Nat
  saved : List LearningSession
  deriving Repr

/-- The deterministic oracles a session run is parameterized by:
    `shlex.split` outcomes, the simulator's LLM fallback, and the
    validator's LLM validation/hint clients (absent when `none`). -/
structure Oracles where
  parse : Str → Except Unit (List Str)
  simLLM : Str → SimulationResult
  valLLM : Option Validator.LLMValidate
  hintLLM : Option Validator.LLMHint

/-- `SPECIAL_COMMANDS`. -/
def specialCommands : List Str :=
  ["hint".toList, "skip".toList, "quit".toList, "exit".toList,
   "help".toList, "status".toList]

/-- `_save_progress`. -/
def saveProgress (st : SMState) : SMState :=
  { st with saved := st.session :: st.saved }

def getLessonP (st : SMState) (li : Nat) : Option LessonProgress :=
  st.session.progress.lesson_progress.get? li

def getExP (st : SMState) (li ei : Nat) : Option ExerciseProgress :=
  (getLessonP st li).bind (fun lp => lp.exercise_progress.get? ei)

/-- Replace the whole `lesson_progress` list of a state. -/
def setLessonProgress (st : SMState) (lps : List LessonProgress) : SMState :=
  let p := st.session.progress
  { st with session := { st.session with progress := { p with lesson_progress := lps } } }

/-- Update the exercise-progress record at `(li, ei)` in place. -/
def updExP (st : SMState) (li ei : Nat) (f : ExerciseProgress → ExerciseProgress) :
    SMState :=
  setLessonProgress st
    (modifyAt st.session.progress.lesson_progress li (fun lp =>
      { lp with exercise_progress := modifyAt lp.exercise_progress ei f }))

def updLessonP (st : SMState) (li : Nat) (f : LessonProgress → LessonProgress) :
    SMState :=
  setLessonProgress st (modifyAt st.session.progress.lesson_progress li f)

/-- Outcome of `_run_exercise`: `True` / `False` / `None` in the source,
    plus `noInput` for an exhausted input stream (where the Python prompt
    would block or raise `EOFError`). -/
inductive ExOutcome where
  | completedEx
  | skippedEx
  | quitEx
  | noInput
  deriving Repr, DecidableEq

/-- The input normalization at the top of the `_run_exercise` loop:
    strip, then remove surrounding backticks (re-stripping) when the whole
    trimmed answer is wrapped in them. -/
def processAnswer (a : Str) : Str :=
  let answer0 := pstrip a
  if pstarts ['`'] answer0 ∧ Sim.pends ['`'] answer0 ∧ 1 < answer0.length then
    pstrip ((answer0.drop 1).dropLast)
  else answer0

/-- The `while True` interaction loop of `_run_exercise`, consuming one
    prompted answer per iteration.  `(li, ei)` locates the exercise's
    progress record; the hint produced on the `hint` path is display-only
    and therefore discarded. -/
def runExerciseLoop (oc : Oracles) (ex : Exercise) (li ei : Nat) :
    SMState → List Str → ExOutcome × SMState × List Str
  | st, [] => (.noInput, st, [])
  | st, a :: rest =>
    let answer := processAnswer a
    let low := plower answer
    if low ∈ specialCommands then
      if low = "quit".toList ∨ low = "exit".toList then
        (.quitEx, saveProgress { st with session := pauseS st.session }, rest)
      else if low = "skip".toList then
        (.skippedEx,
         saveProgress (updExP st li ei (fun e => { e with status := .failed })),
         rest)
      else if low = "hint".toList then
        let st1 := { st with hint_count := st.hint_count + 1 }
        let _hint := Validator.generate_hint oc.hintLLM ex
          (((getExP st1 li ei).bind (fun e => e.user_answer)).getD [])
          (st1.hint_count : Int)
        runExerciseLoop oc ex li ei st1 rest
      else
        runExerciseLoop oc ex li ei st rest
    else
      let sres := Sim.simulate st.simulator ⟨answer, oc.parse answer, oc.simLLM answer⟩
      let st1 := { st with simulator := sres.2 }
      let st2 := updExP st1 li ei (fun e =>
        { e with attempts := e.attempts + 1, user_answer := some answer })
      let v := Validator.validate oc.valLLM ex answer (some ex.instruction)
      if v.status = .correct then
        (.completedEx,
         saveProgress (updExP st2 li ei (fun e =>
           { e with status := .completed, completed_at := some () })),
         rest)
      else
        runExerciseLoop oc ex li ei { st2 with hint_count := st2.hint_count + 1 } rest

/-- `_run_exercise`: reset the hint counter, mark the exercise
    in-progress, then loop. -/
def runExercise (oc : Oracles) (ex : Exercise) (li ei : Nat) (st : SMState)
    (answers : List Str) : ExOutcome × SMState × List Str :=
  runExerciseLoop oc ex li ei
    (updExP { st with hint_count := 0 } li ei (fun e => { e with status := .in_progress }))
    answers

/-- Outcome of `_run_lesson_exercises` / `_run_lessons`: normal
    completion, user quit, exhausted input, or a progress-list misalignment
    (where Python would raise `IndexError`). -/
inductive LoopOutcome where
  | finished
  | quitOut
  | declined
  | noInput
  | errOut
  deriving Repr, DecidableEq

/-- `_run_lesson_exercises`, iterating from exercise index `ei`. -/
def runLessonExercisesAux (oc : Oracles) (li : Nat) :
    List Exercise → Nat → SMState → List Str → LoopOutcome × SMState × List Str
  | [], _, st, answers => (.finished, st, answers)
  | ex :: rest, ei, st, answers =>
    match getExP st li ei with
    | none => (.errOut, st, answers)
    | some exp =>
      if exp.status = ProgressStatus.completed ∨ exp.status = ProgressStatus.failed then
        runLessonExercisesAux oc li rest (ei + 1) st answers
      else
        let st1 := { st with
          session := { st.session with current_exercise_id := some ex.id } }
        let st2 := { st1 with simulator := Sim.reset st1.simulator }
        match runExercise oc ex li ei st2 answers with
        | (.quitEx, st3, rest') => (.quitOut, st3, rest')
        | (.noInput, st3, rest') => (.noInput, st3, rest')
        | (_, st3, rest') => runLessonExercisesAux oc li rest (ei + 1) st3 rest'

def runLessonExercises (oc : Oracles) (li : Nat) (lesson : Lesson)
    (st : SMState) (answers : List Str) : LoopOutcome × SMState × List Str :=
  runLessonExercisesAux oc li lesson.exercises 0 st answers

/-- One iteration of the `_run_lessons` `for` loop, for `lesson_idx = li`:
    skip completed lessons, otherwise run the exercises and mark the
    lesson complete; when it is not the last lesson, the continue prompt
    consumes one boolean. -/
def processLesson (oc : Oracles) (li : Nat) (st : SMState)
    (answers : List Str) (conts : List Bool) :
    LoopOutcome × SMState × List Str × List Bool :=
  let p0 := st.session.progress
  let st0 :=
    { st with session := { st.session with progress := { p0 with current_lesson_index := li } } }
  match st0.session.course.lessons.get? li, getLessonP st0 li with
  | some lesson, some lp =>
    if lp.status = ProgressStatus.completed then (.finished, st0, answers, conts)
    else
      let st1 := updLessonP st0 li (fun l =>
        { l with status := .in_progress,
                 started_at := if l.started_at = none then some () else l.started_at })
      let st2 := { st1 with
        session := { st1.session with current_lesson_id := some lesson.id } }
      match runLessonExercises oc li lesson st2 answers with
      | (.finished, st3, answers') =>
        let st4 := updLessonP st3 li (fun l =>
          { l with status := .completed, completed_at := some () })
        let p4 := markLessonComplete st4.session.progress lesson.id
        let st5 := { st4 with session := { st4.session with progress := p4 } }
        if li < st5.session.course.lessons.length - 1 then
          match conts with
          | [] => (.noInput, st5, answers', [])
          | c :: conts' =>
            if c then (.finished, st5, answers', conts')
            else
              (.declined,
               saveProgress { st5 with session := pauseS st5.session },
               answers', conts')
        else (.finished, st5, answers', conts)
      | (out, st3, answers') => (out, st3, answers', conts)
  | _, _ => (.errOut, st0, answers, conts)

/-- `_run_lessons`: iterate `processLesson` over the remaining lesson
    indices (`rem` is the loop fuel `len(lessons) - start_index`). -/
def runLessonsAux (oc : Oracles) : Nat → Nat → SMState → List Str → List Bool →
    LoopOutcome × SMState × List Str × List Bool
  | 0, _, st, answers, conts => (.finished, st, answers, conts)
  | rem + 1, li, st, answers, conts =>
    match processLesson oc li st answers conts with
    | (.finished, st1, answers', conts') =>
      runLessonsAux oc rem (li + 1) st1 answers' conts'
    | other => other

def runLessons (oc : Oracles) (st : SMState) (answers : List Str)
    (conts : List Bool) : LoopOutcome × SMState × List Str × List Bool :=
  runLessonsAux oc
    (st.session.course.lessons.length - st.session.progress.current_lesson_index)
    st.session.progress.current_lesson_index st answers conts

/-- The tail of `run()`: complete the session when the course progress is
    complete, otherwise pause; always persist. -/
def runTail (st : SMState) : SMState :=
  let s :=
    if isCompletedC st.session.progress then completeS st.session
    else pauseS st.session
  saveProgress { st with session := s }

/-- `SessionManager.run`.  On a `quit`, a declined continue prompt or
    normal completion the tail always executes; an exhausted input stream
    or an `IndexError` would propagate out of the Python loop, so the tail
    is skipped in those outcomes. -/
def run (oc : Oracles) (st : SMState) (answers : List Str) (conts : List Bool) :
    SMState :=
  let p := st.session.progress
  let p1 :=
    { p with
        status := ProgressStatus.in_progress
        started_at := if p.started_at = none then some () else p.started_at }
  let st1 := { st with session := { st.session with state := .active, progress := p1 } }
  match runLessons oc st1 answers conts with
  | (.noInput, st2, _, _) => st2
  | (.errOut, st2, _, _) => st2
  | (_, st2, _, _) => runTail st2

/-- Fresh manager state for a new session
    (`SessionManager.create_new_session` wiring). -/
def newSMState (course : Course) (sid : Str) (llm : Bool) : SMState :=
  { session := newSession course sid
    simulator := Sim.initSim llm
    hint_count := 0
    saved := [] }

end Session

/-! ## Claim C9 -/
/-- The C9 invariant: the current directory is a registered directory, the
    environment still maps HOME to `/home/user`, and `/home/user` stays
    registered. -/
def simInv (s : CommandSimulator) : Prop :=
  s.filesystem.current_dir ∈ s.filesystem.directories ∧
  Sim.envGet s.environment "HOME".toList "/home/user".toList = "/home/user".toList ∧
  "/home/user".toList ∈ s.filesystem.directories

namespace Session

/-! ## Session-manager lemmas -/
/-- A per-lesson shape that every exercise interaction preserves:
    lesson id, lesson status, number of exercise records. -/
def lpShape (lp : LessonProgress) : Str × ProgressStatus × Nat :=
  (lp.lesson_id, lp.status, lp.exercise_progress.length)

/-- An expected-output string that survives the interaction loop
    unchanged: stripping is all that happens to it, it is not
    backtick-wrapped, and it is not a special command. -/
def goodAnswer (e : Str) : Prop :=
  pstrip e ≠ [] ∧
  ¬ (pstarts ['`'] (pstrip e) ∧ Sim.pends ['`'] (pstrip e) ∧
      1 < (pstrip e).length) ∧
  plower (pstrip e) ∉ specialCommands

instance (e : Str) : Decidable (goodAnswer e) := by
  unfold goodAnswer; infer_instance

/-- An exercise that one exact answer completes. -/
def goodExercise (ex : Exercise) : Prop :=
  ∃ e, ex.expected_output = some e ∧ goodAnswer e

/-- What a whole exercise iteration leaves untouched, seen from the
    lesson level. -/
def lessonFrame (li : Nat) (st st2 : SMState) : Prop :=
  st2.session.course = st.session.course ∧
  st2.session.state = st.session.state ∧
  st2.session.progress.current_lesson_index =
    st.session.progress.current_lesson_index ∧
  (∀ li2 ei2, li2 ≠ li → getExP st2 li2 ei2 = getExP st li2 ei2) ∧
  (∀ li2, (getLessonP st2 li2).map lpShape = (getLessonP st li2).map lpShape) ∧
  st2.session.progress.lesson_progress.length =
    st.session.progress.lesson_progress.length

/-- The answer stream that answers every exercise of a lesson with its
    exact expected output. -/
def lessonAnswers (l : Lesson) : List Str :=
  l.exercises.map (fun ex => ex.expected_output.getD [])

/-- The concatenated answer streams of the lessons from index `li` on. -/
def courseAnswersFrom (c : Course) (li : Nat) : List Str :=
  ((c.lessons.drop li).map lessonAnswers).join

/-- The concatenated answer streams of all lessons of a course. -/
def courseAnswers (c : Course) : List Str :=
  courseAnswersFrom c 0

/-- A concrete deterministic oracle assignment: whitespace `shlex`,
    empty simulator LLM output, no validation or hint LLM clients. -/
def concreteOracles : Oracles :=
  { parse := fun s => .ok (psplitWs s)
    simLLM := fun _ => Sim.okOut []
    valLLM := none
    hintLLM := none }

/-- A one-lesson course whose only exercise expects the literal answer
    `quit`. -/
def quitCourse : Course :=
  { id := "c".toList
    topic := "t".toList
    description := "d".toList
    difficulty := .beginner
    lessons := [{ id := "l1".toList
                  title := "L".toList
                  objectives := []
                  exercises := [{ id := "e1".toList
                                  instruction := "i".toList
                                  expected_output := some ("quit".toList)
                                  hints := [] }] }] }

def w3Ex : Exercise :=
  { id := "e1".toList
    instruction := "i".toList
    expected_output := some ("ok".toList)
    hints := [] }

def w3Lesson : Lesson :=
  { id := "l1".toList
    title := "L".toList
    objectives := []
    exercises := [w3Ex] }

/-- A one-lesson course whose only exercise expects the literal answer
    `ok`. -/
def w3Course : Course :=
  { id := "c".toList
    topic := "t".toList
    description := "d".toList
    difficulty := .beginner
    lessons := [w3Lesson] }

def c2Ex1 : Exercise :=
  { id := "e1".toList
    instruction := "i".toList
    expected_output := some ("git init".toList)
    hints := [] }

def c2Ex2 : Exercise :=
  { id := "e2".toList
    instruction := "i".toList
    expected_output := some ("ok".toList)
    hints := [] }

def c2Lesson : Lesson :=
  { id := "l1".toList
    title := "L".toList
    objectives := []
    exercises := [c2Ex1, c2Ex2] }

/-- A one-lesson two-exercise course for exercising the skip path. -/
def c2Course : Course :=
  { id := "c".toList
    topic := "t".toList
    description := "d".toList
    difficulty := .beginner
    lessons := [c2Lesson] }

end Session

/-! ## Theorems -/

namespace VFS

/-! ### Lemmas about `splitOnPred`, `joinSlash` and `normalize_path` -/
theorem splitOnPred_ne_nil (p : Char → Bool) (l : Str) : splitOnPred p l ≠ [] := by
  induction l with
  | nil => simp [splitOnPred]
  | cons c cs ih =>
    simp only [splitOnPred, List.foldr_cons] at *
    by_cases hc : p c
    · simp [hc]
    · simp only [hc, if_neg, Bool.false_eq_true, if_false]
      cases h : List.foldr _ [[]] cs with
      | nil => exact absurd h ih
      | cons a as => simp

theorem splitOnPred_nil (p : Char → Bool) : splitOnPred p [] = [[]] := rfl

theorem splitOnPred_cons_sep (p : Char → Bool) (c : Char) (l : Str) (hc : p c = true) :
    splitOnPred p (c :: l) = [] :: splitOnPred p l := by
  simp [splitOnPred, hc]

theorem splitOnPred_cons_nonsep (p : Char → Bool) (c : Char) (l : Str) (a : Str)
    (as : List Str) (hc : p c = false) (h : splitOnPred p l = a :: as) :
    splitOnPred p (c :: l) = (c :: a) :: as := by
  simp only [splitOnPred, List.foldr_cons, hc, Bool.false_eq_true, if_false]
  simp only [splitOnPred] at h
  rw [h]

/-- Characters of the pieces of `splitOnPred p l` never satisfy `p`. -/
theorem splitOnPred_no_sep (p : Char → Bool) (l : Str) :
    ∀ s ∈ splitOnPred p l, ∀ c ∈ s, p c = false := by
  induction l with
  | nil => intro s hs c hc; simp [splitOnPred] at hs; simp [hs] at hc
  | cons d ds ih =>
    intro s hs c hc
    by_cases hd : p d
    · rw [splitOnPred_cons_sep p d ds hd] at hs
      rcases List.mem_cons.mp hs with hs | hs
      · simp [hs] at hc
      · exact ih s hs c hc
    · obtain ⟨a, as, ha⟩ : ∃ a as, splitOnPred p ds = a :: as := by
        cases h : splitOnPred p ds with
        | nil => exact absurd h (splitOnPred_ne_nil p ds)
        | cons a as => exact ⟨a, as, rfl⟩
      rw [splitOnPred_cons_nonsep p d ds a as (by simpa using hd) ha] at hs
      rcases List.mem_cons.mp hs with hs | hs
      · subst hs
        rcases List.mem_cons.mp hc with hc | hc
        · subst hc; simpa using hd
        · exact ih a (by simp [ha]) c hc
      · exact ih s (by simp [ha, hs]) c hc

/-- A string with no separator characters splits into a single piece. -/
theorem splitOnPred_all_nonsep (p : Char → Bool) (a : Str)
    (h : ∀ c ∈ a, p c = false) : splitOnPred p a = [a] := by
  induction a with
  | nil => rfl
  | cons c cs ih =>
    have hc : p c = false := h c (by simp)
    have hcs := ih (fun d hd => h d (by simp [hd]))
    exact splitOnPred_cons_nonsep p c cs cs [] hc hcs

/-- Prepending separator-free characters extends the first piece. -/
theorem splitOnPred_append_nonsep (p : Char → Bool) (a x : Str) (h : Str)
    (t : List Str) (ha : ∀ c ∈ a, p c = false) (hx : splitOnPred p x = h :: t) :
    splitOnPred p (a ++ x) = (a ++ h) :: t := by
  induction a with
  | nil => simpa using hx
  | cons c cs ih =>
    have hc : p c = false := ha c (by simp)
    have hcs := ih (fun d hd => ha d (by simp [hd]))
    simpa using splitOnPred_cons_nonsep p c (cs ++ x) (cs ++ h) t hc hcs

theorem joinSlash_cons_cons (a b : Str) (rest : List Str) :
    joinSlash (a :: b :: rest) = a ++ '/' :: joinSlash (b :: rest) := by
  simp [joinSlash, List.intercalate, List.intersperse_cons_cons]

/-- `splitSlash` undoes `joinSlash` on a non-empty list of slash-free pieces. -/
theorem splitSlash_joinSlash (parts : List Str) (hne : parts ≠ [])
    (hfree : ∀ s ∈ parts, ∀ c ∈ s, (decide (c = '/') : Bool) = false) :
    splitSlash (joinSlash parts) = parts := by
  induction parts with
  | nil => exact absurd rfl hne
  | cons a rest ih =>
    cases rest with
    | nil =>
      have : joinSlash [a] = a := by simp [joinSlash, List.intercalate]
      rw [this]
      exact splitOnPred_all_nonsep _ a (hfree a (by simp))
    | cons b rs =>
      rw [joinSlash_cons_cons]
      have hrest := ih (by simp) (fun s hs c hc => hfree s (by simp [hs]) c hc)
      have hsep : splitSlash ('/' :: joinSlash (b :: rs)) =
          [] :: splitSlash (joinSlash (b :: rs)) :=
        splitOnPred_cons_sep _ '/' _ (by simp)
      have hx : splitSlash ('/' :: joinSlash (b :: rs)) = [] :: b :: rs := by
        rw [hsep, hrest]
      have := splitOnPred_append_nonsep (fun c => decide (c = '/')) a
        ('/' :: joinSlash (b :: rs)) [] (b :: rs) (hfree a (by simp)) hx
      simpa [splitSlash] using this

/-- Folding `collapseStep` over a list of good segments just appends them. -/
theorem foldl_collapseStep_good (l : List Str) (acc : List Str)
    (h : ∀ s ∈ l, goodSeg s) : List.foldl collapseStep acc l = acc ++ l := by
  induction l generalizing acc with
  | nil => simp
  | cons a rest ih =>
    have ha := h a (by simp)
    have : collapseStep acc a = acc ++ [a] := by
      simp [collapseStep, ha.1, ha.2.1, ha.2.2.1]
    rw [List.foldl_cons, this, ih (acc ++ [a]) (fun s hs => h s (by simp [hs]))]
    simp

/-- Every segment surviving `collapseStep`-folding is good, provided the
    inputs are slash-free and the accumulator starts good. -/
theorem foldl_collapseStep_output_good (l : List Str) (acc : List Str)
    (hacc : ∀ s ∈ acc, goodSeg s)
    (hl : ∀ s ∈ l, ∀ c ∈ s, (decide (c = '/') : Bool) = false) :
    ∀ s ∈ List.foldl collapseStep acc l, goodSeg s := by
  induction l generalizing acc with
  | nil => simpa using hacc
  | cons a rest ih =>
    rw [List.foldl_cons]
    refine ih (collapseStep acc a) ?_ (fun s hs c hc => hl s (by simp [hs]) c hc)
    intro s hs
    by_cases h1 : a = ['.', '.']
    · simp only [collapseStep, h1, if_pos rfl] at hs
      exact hacc s (List.dropLast_subset acc hs)
    · by_cases h2 : a ≠ [] ∧ a ≠ ['.']
      · simp only [collapseStep, if_neg h1, if_pos h2] at hs
        rcases List.mem_append.mp hs with hs | hs
        · exact hacc s hs
        · have : s = a := by simpa using hs
          subst this
          exact ⟨h2.1, h2.2, h1, hl s (by simp)⟩
      · simp only [collapseStep, if_neg h1, if_neg h2] at hs
        exact hacc s hs

theorem splitSlash_cons_slash (l : Str) : splitSlash ('/' :: l) = [] :: splitSlash l := by
  show splitOnPred _ ('/' :: l) = [] :: splitOnPred _ l
  exact splitOnPred_cons_sep _ '/' l (by simp)

theorem normalize_path_eq_mkAbs (cur path : Str) :
    normalize_path cur path = mkAbs (normSegs cur path) := rfl

theorem normSegs_good (cur path : Str) : ∀ s ∈ normSegs cur path, goodSeg s := by
  refine foldl_collapseStep_output_good _ [] (by simp) ?_
  exact fun s hs c hc => splitOnPred_no_sep _ _ s hs c hc

/-- Claim C6, part of the proof: normalizing an already-normalized path is
    the identity. -/
theorem normalize_path_of_norm (cur cur2 path : Str) :
    normalize_path cur2 (normalize_path cur path) = normalize_path cur path := by
  rw [normalize_path_eq_mkAbs cur path]
  cases hP : normSegs cur path with
  | nil => rfl
  | cons h t =>
    have hgood : ∀ s ∈ h :: t, goodSeg s := by rw [← hP]; exact normSegs_good cur path
    have hfree : ∀ s ∈ h :: t, ∀ c ∈ s, (decide (c = '/') : Bool) = false :=
      fun s hs => (hgood s hs).2.2.2
    show normalize_path cur2 (mkAbs (h :: t)) = mkAbs (h :: t)
    have hmk : mkAbs (h :: t) = '/' :: joinSlash (h :: t) := by simp [mkAbs]
    rw [normalize_path_eq_mkAbs]
    have habs : (mkAbs (h :: t)).take 1 = ['/'] := by rw [hmk]; rfl
    have hsegs : normSegs cur2 (mkAbs (h :: t)) = h :: t := by
      unfold normSegs
      rw [if_pos habs, hmk]
      have hsplit : splitSlash ('/' :: joinSlash (h :: t)) = [] :: h :: t := by
        rw [splitSlash_cons_slash,
          splitSlash_joinSlash (h :: t) (by simp) hfree]
      rw [hsplit]
      have hstep : collapseStep [] [] = [] := rfl
      rw [List.foldl_cons, hstep,
        foldl_collapseStep_good (h :: t) [] (fun s hs => hgood s hs)]
      simp
    rw [hsegs]

/-- The output of `normalize_path` always begins with `/`. -/
theorem normalize_path_rooted (cur path : Str) :
    (normalize_path cur path).take 1 = ['/'] := by
  rw [normalize_path_eq_mkAbs]
  cases normSegs cur path with
  | nil => rfl
  | cons h t => rfl

theorem splitSlash_mkAbs_of_ne (P : List Str) (h : goodSegs P) (hne : P ≠ []) :
    splitSlash (mkAbs P) = [] :: P := by
  have : mkAbs P = '/' :: joinSlash P := by simp [mkAbs, hne]
  rw [this, splitSlash_cons_slash,
    splitSlash_joinSlash P hne (fun s hs => (h s hs).2.2.2)]

theorem segsOf_mkAbs (P : List Str) (h : goodSegs P) : segsOf (mkAbs P) = P := by
  by_cases hne : P = []
  · subst hne; rfl
  · unfold segsOf
    rw [splitSlash_mkAbs_of_ne P h hne]
    have h0 : (([] : Str) :: P).filter (fun s => decide (s ≠ [])) =
        P.filter (fun s => decide (s ≠ [])) := by simp
    rw [h0, List.filter_eq_self.mpr (fun a ha => by simpa using (h a ha).1)]

theorem mkAbs_eq_root_iff (P : List Str) (h : goodSegs P) :
    mkAbs P = ['/'] ↔ P = [] := by
  constructor
  · intro habs
    by_contra hne
    have := segsOf_mkAbs P h
    rw [habs] at this
    have hroot : segsOf ['/'] = [] := rfl
    rw [hroot] at this
    exact hne this.symm
  · intro h; subst h; rfl

theorem segsOf_normalize (cur p : Str) :
    segsOf (normalize_path cur p) = normSegs cur p := by
  rw [normalize_path_eq_mkAbs]
  exact segsOf_mkAbs _ (normSegs_good cur p)

theorem normalize_eq_mkAbs_segsOf (cur p : Str) :
    normalize_path cur p = mkAbs (segsOf (normalize_path cur p)) := by
  rw [segsOf_normalize, normalize_path_eq_mkAbs]

/-- A normalized non-root path is distinct from its parent. -/
theorem parentPath_ne_self (cur p : Str) (hroot : normalize_path cur p ≠ ['/']) :
    parentPath (normalize_path cur p) ≠ normalize_path cur p := by
  set n := normalize_path cur p with hn
  have hsegs : segsOf n = normSegs cur p := segsOf_normalize cur p
  have hgood : goodSegs (normSegs cur p) := normSegs_good cur p
  have hPne : normSegs cur p ≠ [] := by
    intro hempty
    apply hroot
    rw [hn, normalize_path_eq_mkAbs, hempty]
    rfl
  intro heq
  have hgood' : goodSegs (normSegs cur p).dropLast :=
    fun s hs => hgood s (List.dropLast_subset _ hs)
  have h1 : segsOf (parentPath n) = (normSegs cur p).dropLast := by
    unfold parentPath
    rw [hsegs]
    exact segsOf_mkAbs _ hgood'
  have h2 : (normSegs cur p).dropLast = normSegs cur p := by
    rw [← h1, heq, hsegs]
  have hlen := congrArg List.length h2
  rw [List.length_dropLast] at hlen
  have hpos : 0 < (normSegs cur p).length := List.length_pos.mpr hPne
  omega

theorem mem_fileKeys_assocSet (f : List (Str × Str)) (n c x : Str) :
    x ∈ (assocSet f n c).map (fun e => e.1) ↔ x ∈ f.map (fun e => e.1) ∨ x = n := by
  unfold assocSet
  by_cases h : f.any (fun e => e.1 = n)
  · rw [if_pos h]
    have hkeys : (f.map (fun e => if e.1 = n then (n, c) else e)).map (fun e => e.1) =
        f.map (fun e => e.1) := by
      rw [List.map_map]
      apply List.map_congr_left
      intro e _
      by_cases he : e.1 = n <;> simp [he]
    rw [hkeys]
    constructor
    · exact Or.inl
    · rintro (hx | rfl)
      · exact hx
      · rcases List.any_eq_true.mp h with ⟨e, he, heq⟩
        have : e.1 = x := by simpa using heq
        exact this ▸ List.mem_map_of_mem _ he
  · rw [if_neg h]
    simp

theorem mem_setAdd (l : List Str) (a x : Str) : x ∈ setAdd l a ↔ x ∈ l ∨ x = a := by
  unfold setAdd
  by_cases h : a ∈ l
  · rw [if_pos h]
    constructor
    · exact Or.inl
    · rintro (hx | rfl) <;> [exact hx; exact h]
  · rw [if_neg h]; simp

theorem mem_addParentsAux (fuel : Nat) (dirs : List Str) (parts : List Str) :
    ∀ x ∈ addParentsAux fuel dirs parts,
      x ∈ dirs ∨ ∃ k ≤ parts.length, x = mkAbs (parts.take k) := by
  induction fuel generalizing dirs parts with
  | zero => intro x hx; exact Or.inl hx
  | succ n ih =>
    intro x hx
    unfold addParentsAux at hx
    by_cases h1 : parts = []
    · rw [if_pos h1] at hx; exact Or.inl hx
    · rw [if_neg h1] at hx
      by_cases h2 : mkAbs parts ∈ dirs
      · rw [if_pos h2] at hx; exact Or.inl hx
      · rw [if_neg h2] at hx
        rcases ih (dirs ++ [mkAbs parts]) parts.dropLast x hx with hmem | ⟨k, hk, hkeq⟩
        · rcases List.mem_append.mp hmem with hmem | hmem
          · exact Or.inl hmem
          · refine Or.inr ⟨parts.length, le_refl _, ?_⟩
            simp only [List.take_length]
            simpa using hmem
        · have hk2 : k ≤ parts.length - 1 := by
            rw [List.length_dropLast] at hk; exact hk
          refine Or.inr ⟨k, by omega, ?_⟩
          have htake : parts.dropLast.take k = parts.take k := by
            rw [List.dropLast_eq_take, List.take_take]
            congr 1
            omega
          rw [hkeq, htake]

/-- A guarded `write_file` preserves the file/directory disjointness. -/
theorem write_preserves_disjoint (fs : VirtualFileSystem) (p c : Str)
    (hd : disjointFS fs)
    (hnd : normalize_path fs.current_dir p ∉ fs.directories)
    (hroot : normalize_path fs.current_dir p ≠ ['/'])
    (hpar : parentPath (normalize_path fs.current_dir p) ∉ fileKeys fs) :
    disjointFS (write_file fs p c) := by
  intro x hx hxd
  set n := normalize_path fs.current_dir p with hn
  have hx' : x ∈ fs.files.map (fun e => e.1) ∨ x = n :=
    (mem_fileKeys_assocSet fs.files n c x).mp hx
  have hxd' : x ∈
      (if parentPath n ≠ [] ∧ parentPath n ∉ fs.directories then
        fs.directories ++ [parentPath n]
      else fs.directories) := hxd
  by_cases hcond : parentPath n ≠ [] ∧ parentPath n ∉ fs.directories
  · rw [if_pos hcond] at hxd'
    rcases List.mem_append.mp hxd' with hxd'' | hxd''
    · rcases hx' with hx' | rfl
      · exact hd x hx' hxd''
      · exact hnd hxd''
    · have hxpar : x = parentPath n := by simpa using hxd''
      rcases hx' with hx' | rfl
      · exact hpar (hxpar ▸ hx')
      · exact parentPath_ne_self fs.current_dir p hroot hxpar.symm
  · rw [if_neg hcond] at hxd'
    rcases hx' with hx' | rfl
    · exact hd x hx' hxd'
    · exact hnd hxd'

/-- One guarded step preserves the file/directory disjointness. -/
theorem stepOK_preserves_disjoint (fs : VirtualFileSystem) (op : FSOp)
    (hd : disjointFS fs) (hok : stepOK fs op) : disjointFS (applyOp fs op) := by
  cases op with
  | readOp p => exact hd
  | listOp p => exact hd
  | write p c =>
    exact write_preserves_disjoint fs p c hd hok.1 hok.2.1 hok.2.2
  | touchOp p =>
    show disjointFS (touch fs p)
    unfold touch
    by_cases hfile : normalize_path fs.current_dir p ∈ fileKeys fs
    · rw [if_pos hfile]; exact hd
    · rw [if_neg hfile]
      rcases hok with hok | hok
      · exact absurd hok hfile
      · exact write_preserves_disjoint fs p [] hd hok.1 hok.2.1 hok.2.2
  | mkdirOp p =>
    intro x hx hxd
    set n := normalize_path fs.current_dir p with hn
    have hxf : x ∈ fileKeys fs := hx
    have hxd' : x ∈ addParentsLoop (setAdd fs.directories n) (segsOf n).dropLast :=
      hxd
    have hok' : ∀ k ≤ (segsOf n).length,
        mkAbs ((segsOf n).take k) ∉ fileKeys fs := hok
    rcases mem_addParentsAux _ _ _ x hxd' with hmem | ⟨k, hk, hkeq⟩
    · rcases (mem_setAdd fs.directories n x).mp hmem with hmem | rfl
      · exact hd x hxf hmem
      · have hfull := hok' (segsOf n).length (le_refl _)
        rw [List.take_length] at hfull
        have hnm : n = mkAbs (segsOf n) := normalize_eq_mkAbs_segsOf _ _
        rw [← hnm] at hfull
        exact hfull hxf
    · have hk2 : k ≤ (segsOf n).length - 1 := by
        rw [List.length_dropLast] at hk; exact hk
      have hnot : mkAbs ((segsOf n).take k) ∉ fileKeys fs := hok' k (by omega)
      have htake : (segsOf n).dropLast.take k = (segsOf n).take k := by
        rw [List.dropLast_eq_take, List.take_take]
        congr 1
        omega
      rw [htake] at hkeq
      exact hnot (hkeq ▸ hxf)

/-- Guarded sequences preserve disjointness from any disjoint start. -/
theorem safeOps_preserves_disjoint (fs : VirtualFileSystem) (ops : List FSOp)
    (hd : disjointFS fs) (hs : safeOps fs ops) : disjointFS (runOps fs ops) := by
  induction ops generalizing fs with
  | nil => exact hd
  | cons op ops ih =>
    obtain ⟨hok, hrest⟩ := hs
    exact ih (applyOp fs op) (stepOK_preserves_disjoint fs op hd hok) hrest

theorem disjointFS_init : disjointFS init := by
  intro p hp
  simp [fileKeys, init] at hp

end VFS

/-! ## Lemmas about `pstrip` -/
theorem dropWhile_idem (p : α → Bool) (l : List α) :
    (l.dropWhile p).dropWhile p = l.dropWhile p := by
  induction l with
  | nil => rfl
  | cons c cs ih =>
    by_cases hc : p c
    · simp [List.dropWhile_cons, hc, ih]
    · simp [List.dropWhile_cons, hc]

theorem trimStart_idem (l : Str) : trimStart (trimStart l) = trimStart l :=
  dropWhile_idem isPySpace l

theorem trimEnd_idem (l : Str) : trimEnd (trimEnd l) = trimEnd l := by
  unfold trimEnd
  rw [List.reverse_reverse, dropWhile_idem]

theorem dropWhile_eq_drop (p : α → Bool) (l : List α) :
    l.dropWhile p = l.drop (l.takeWhile p).length := by
  induction l with
  | nil => rfl
  | cons c cs ih =>
    by_cases hc : p c
    · simp [List.dropWhile_cons, List.takeWhile_cons, hc, ih]
    · simp [List.dropWhile_cons, List.takeWhile_cons, hc]

theorem trimEnd_eq_take (l : Str) : ∃ k, trimEnd l = l.take k := by
  refine ⟨l.length - (l.reverse.takeWhile isPySpace).length, ?_⟩
  unfold trimEnd
  rw [dropWhile_eq_drop]
  rw [List.reverse_drop, List.reverse_reverse, List.length_reverse]

theorem trimStart_head (l : Str) (h : trimStart l = l) (c : Char) (cs : Str)
    (hl : l = c :: cs) : isPySpace c = false := by
  subst hl
  by_contra hc
  have hc' : isPySpace c = true := by
    cases h2 : isPySpace c
    · exact absurd h2 hc
    · rfl
  unfold trimStart at h
  rw [List.dropWhile_cons, if_pos hc'] at h
  have hlen := congrArg List.length h
  rw [dropWhile_eq_drop, List.length_drop] at hlen
  simp at hlen
  omega

theorem trimStart_take (l : Str) (h : trimStart l = l) (k : Nat) :
    trimStart (l.take k) = l.take k := by
  cases l with
  | nil => simp [trimStart]
  | cons c cs =>
    cases k with
    | zero => rfl
    | succ k =>
      have hc := trimStart_head (c :: cs) h c cs rfl
      simp only [List.take_succ_cons]
      unfold trimStart
      rw [List.dropWhile_cons, if_neg (by simp [hc])]

theorem pstrip_idem (l : Str) : pstrip (pstrip l) = pstrip l := by
  unfold pstrip
  have h1 : trimStart (trimStart l) = trimStart l := trimStart_idem l
  obtain ⟨k, hk⟩ := trimEnd_eq_take (trimStart l)
  have h2 : trimStart (trimEnd (trimStart l)) = trimEnd (trimStart l) := by
    rw [hk]
    exact trimStart_take (trimStart l) h1 k
  rw [h2, trimEnd_idem]

theorem pstrip_nil : pstrip [] = [] := rfl

theorem pstrip_ne_nil_of (e : Str) (h : pstrip e ≠ []) : e ≠ [] := by
  intro he
  subst he
  exact h pstrip_nil

/-! ## Claim C6 -/
/-- **C6.**  For every path string and every `current_dir`,
    `normalize_path` is idempotent, and its output is always `/`-rooted
    (the definition returns the literal `"/"` when the collapsed segment
    list is empty). -/
theorem c6_normalize_path_idempotent_and_rooted (cur path : Str) :
    VFS.normalize_path cur (VFS.normalize_path cur path) =
      VFS.normalize_path cur path ∧
    (VFS.normalize_path cur path).take 1 = ['/'] :=
  ⟨VFS.normalize_path_of_norm cur cur path, VFS.normalize_path_rooted cur path⟩

/-! ## Claim C1 -/
/-- **C1 counterexample.**  The claimed invariant is false: starting from
    the initial state, the single operation `write_file("/tmp", "x")`
    leaves `/tmp` simultaneously a key of `files` and a member of
    `directories` (which contains `/tmp` from initialization). -/
theorem c1_counterexample_tmp_both_file_and_directory :
    ¬ VFS.disjointFS
        (VFS.runOps VFS.init [VFS.FSOp.write "/tmp".toList "x".toList]) := by
  intro h
  exact h "/tmp".toList (by decide) (by decide)

/-- **C1 (amended).**  Disjointness of `files` and `directories` is
    preserved by every operation sequence in which each `write_file` /
    `touch` targets a path whose normalization is not an existing
    directory and not the root and whose parent is not an existing file
    (unless the touched file already exists), and each `create_directory`
    targets a path none of whose normalized ancestor prefixes is an
    existing file. -/
theorem c1_amended_guarded_disjointness (ops : List VFS.FSOp)
    (h : VFS.safeOps VFS.init ops) :
    VFS.disjointFS (VFS.runOps VFS.init ops) :=
  VFS.safeOps_preserves_disjoint VFS.init ops VFS.disjointFS_init h

theorem c1_amended_guarded_disjointness_witness :
    VFS.safeOps VFS.init
      [VFS.FSOp.mkdirOp "projects".toList, VFS.FSOp.touchOp "projects/a.txt".toList,
       VFS.FSOp.write "b.txt".toList "hi".toList, VFS.FSOp.readOp "b.txt".toList,
       VFS.FSOp.listOp ".".toList] ∧
    VFS.disjointFS (VFS.runOps VFS.init
      [VFS.FSOp.mkdirOp "projects".toList, VFS.FSOp.touchOp "projects/a.txt".toList,
       VFS.FSOp.write "b.txt".toList "hi".toList, VFS.FSOp.readOp "b.txt".toList,
       VFS.FSOp.listOp ".".toList]) :=
  ⟨by decide, c1_amended_guarded_disjointness _ (by decide)⟩

/-! ## Validator lemmas -/
theorem get?_isSome_of_lt (l : List α) (i : Nat) (h : i < l.length) :
    (l.get? i).isSome = true := by
  induction l generalizing i with
  | nil => simp at h
  | cons a as ih =>
    cases i with
    | zero => rfl
    | succ i => exact ih i (by simpa using h)

theorem get_hints_zero (ex : Exercise) :
    Validator.get_exercise_hints ex 0 =
      (match ex.hints with | [] => [] | h :: _ => [h]) := by
  unfold Validator.get_exercise_hints
  cases hh : ex.hints with
  | nil => simp
  | cons h t => simp [hh]

/-! ## Claim C5 -/
/-- **C5 counterexample.**  For an exercise whose `expected_output` is the
    non-null empty string, the exact copy of the expected output (the
    empty answer) is *not* validated as CORRECT: the stripped answer is
    empty, so `validate` returns INCORRECT with score 0.0 (the pattern
    tiers are skipped because the empty string is falsy). -/
theorem c5_counterexample_empty_expected_output :
    (Validator.validate none
        ⟨"e1".toList, "instr".toList, some [], []⟩ [] none).status =
      ValidationStatus.incorrect ∧
    (Validator.validate none
        ⟨"e1".toList, "instr".toList, some [], []⟩ [] none).score = 0 := by
  constructor <;> rfl

/-- **C5 (amended).**  For every exercise whose `expected_output` is
    non-null and not whitespace-only, validating the exact
    character-for-character copy of that expected output with no LLM
    client yields status CORRECT and score 1.0. -/
theorem c5_amended_exact_copy_correct (ex : Exercise) (e : Str)
    (ctx : Option Str) (hex : ex.expected_output = some e)
    (hne : pstrip e ≠ []) :
    (Validator.validate none ex e ctx).status = ValidationStatus.correct ∧
    (Validator.validate none ex e ctx).score = 1 := by
  have hE : e ≠ [] := pstrip_ne_nil_of e hne
  unfold Validator.validate
  simp only [hex]
  rw [if_neg hne, if_pos (decide_eq_true hE)]
  unfold Validator.validate_with_pattern
  simp only [hex]
  simp

theorem c5_amended_exact_copy_correct_witness :
    (⟨"e1".toList, "instr".toList, some "git status".toList,
        []⟩ : Exercise).expected_output = some "git status".toList ∧
    pstrip "git status".toList ≠ [] ∧
    ((Validator.validate none
        ⟨"e1".toList, "instr".toList, some "git status".toList, []⟩
        "git status".toList none).status = ValidationStatus.correct ∧
     (Validator.validate none
        ⟨"e1".toList, "instr".toList, some "git status".toList, []⟩
        "git status".toList none).score = 1) :=
  ⟨rfl, by decide,
   c5_amended_exact_copy_correct _ _ none rfl (by decide)⟩

/-! ## Claim C7 -/
/-- **C7 counterexample.**  The claim's final clause — that the hint-list
    indexing never goes out of range for *any* integer `n` — is false:
    for `n = -1` and a single stored hint, the guard
    `attempt_number <= len(hints)` passes and `hints[-2]` raises
    `IndexError` (modelled by `none`). -/
theorem c7_counterexample_negative_attempt_number :
    Validator.generate_hint none
      ⟨"e1".toList, "instr".toList, none, ["h1".toList]⟩ [] (-1) = none := by
  rfl

/-- **C7 (amended).**  For every attempt number `n ≥ 0`: the call never
    raises (`isSome`); for `1 ≤ n ≤ len(hints)` it returns
    `hints[n - 1]`; and for `n > len(hints)` it returns the LLM-generated
    hint, or the static fallback when no LLM client exists. -/
theorem c7_amended_hint_sequencing (llmh : Option Validator.LLMHint)
    (ex : Exercise) (ua : Str) (n : Int) (h0 : 0 ≤ n) :
    (Validator.generate_hint llmh ex ua n).isSome = true ∧
    (1 ≤ n → n ≤ (ex.hints.length : Int) →
      Validator.generate_hint llmh ex ua n = ex.hints.get? (n - 1).toNat) ∧
    ((ex.hints.length : Int) < n →
      Validator.generate_hint llmh ex ua n =
        some (match llmh with
              | some f => f ex ua n
              | none => Validator.fallbackHint)) := by
  unfold Validator.generate_hint
  by_cases hb : ex.hints ≠ [] ∧ n ≤ (ex.hints.length : Int)
  · rw [if_pos hb]
    have hlen : 0 < ex.hints.length := List.length_pos.mpr hb.1
    refine ⟨?_, ?_, ?_⟩
    · unfold Validator.pyIndex
      by_cases h1 : 0 ≤ n - 1
      · rw [if_pos h1]
        apply get?_isSome_of_lt
        have : n - 1 < (ex.hints.length : Int) := by omega
        omega
      · rw [if_neg h1]
        have hn0 : n = 0 := by omega
        subst hn0
        rw [if_pos (by simpa using hlen)]
        apply get?_isSome_of_lt
        simp
        omega
    · intro h1 _
      unfold Validator.pyIndex
      rw [if_pos (by omega)]
    · intro hgt
      exact absurd hb.2 (by omega)
  · rw [if_neg hb]
    refine ⟨rfl, ?_, fun _ => rfl⟩
    intro h1 h2
    exfalso
    apply hb
    constructor
    · intro hnil
      rw [hnil] at h2
      simp at h2
      omega
    · exact h2

theorem c7_amended_hint_sequencing_witness :
    0 ≤ (2 : Int) ∧
    ((Validator.generate_hint none
        ⟨"e1".toList, "instr".toList, none, ["h1".toList, "h2".toList]⟩
        "w".toList 2).isSome = true ∧
     (1 ≤ (2 : Int) →
        (2 : Int) ≤
          ((⟨"e1".toList, "instr".toList, none,
              ["h1".toList, "h2".toList]⟩ : Exercise).hints.length : Int) →
        Validator.generate_hint none
          ⟨"e1".toList, "instr".toList, none, ["h1".toList, "h2".toList]⟩
          "w".toList 2 =
          (⟨"e1".toList, "instr".toList, none,
              ["h1".toList, "h2".toList]⟩ : Exercise).hints.get?
            ((2 : Int) - 1).toNat) ∧
     (((⟨"e1".toList, "instr".toList, none,
          ["h1".toList, "h2".toList]⟩ : Exercise).hints.length : Int) < 2 →
        Validator.generate_hint none
          ⟨"e1".toList, "instr".toList, none, ["h1".toList, "h2".toList]⟩
          "w".toList 2 =
          some (match (none : Option Validator.LLMHint) with
                | some f => f ⟨"e1".toList, "instr".toList, none,
                    ["h1".toList, "h2".toList]⟩ "w".toList 2
                | none => Validator.fallbackHint))) :=
  ⟨by decide,
   c7_amended_hint_sequencing none
     ⟨"e1".toList, "instr".toList, none, ["h1".toList, "h2".toList]⟩
     "w".toList 2 (by decide)⟩

/-! ## Claim C10 -/
/-- **C10.**  Every `ValidationResult` produced without an LLM client on
    the empty-answer path or the `contains` / `subset` / `no_match`
    tiers carries exactly the exercise's first stored hint (or no hint
    when the exercise has none) — never a later one. -/
theorem c10_non_llm_hints_first_only (ex : Exercise) (ua : Str)
    (ctx : Option Str)
    (h : pstrip ua = [] ∨
      (Validator.validate none ex ua ctx).matchType = some MatchType.contains ∨
      (Validator.validate none ex ua ctx).matchType = some MatchType.subset ∨
      (Validator.validate none ex ua ctx).matchType = some MatchType.noMatch) :
    (Validator.validate none ex ua ctx).hints =
      (match ex.hints with | [] => [] | h :: _ => [h]) := by
  rw [← get_hints_zero]
  by_cases hempty : pstrip ua = []
  · simp only [Validator.validate]
    rw [if_pos hempty]
  · rcases h with h | h
    · exact absurd h hempty
    · simp only [Validator.validate] at h ⊢
      rw [if_neg hempty] at h ⊢
      cases hex : ex.expected_output with
      | none =>
        simp only [hex, Validator.validate_basic] at h
        simp at h
      | some e =>
        simp only [hex] at h ⊢
        by_cases he : e = []
        · subst he
          rw [if_neg (by simp)] at h ⊢
          simp only [Validator.validate_basic, hex] at h ⊢
        · rw [if_pos (decide_eq_true he)] at h ⊢
          simp only [Validator.validate_with_pattern, hex] at h ⊢
          split_ifs at h ⊢ with h1 h2 h3 h4 h5
          · simp at h
          · simp at h
          · simp at h
          · rfl
          · rfl
          · simp only [Validator.validate_basic, hex] at h ⊢

theorem c10_non_llm_hints_first_only_witness :
    (pstrip "xx abc yy".toList = [] ∨
      (Validator.validate none
          ⟨"e1".toList, "i".toList, some "abc".toList,
            ["h1".toList, "h2".toList]⟩ "xx abc yy".toList none).matchType =
        some MatchType.contains ∨
      (Validator.validate none
          ⟨"e1".toList, "i".toList, some "abc".toList,
            ["h1".toList, "h2".toList]⟩ "xx abc yy".toList none).matchType =
        some MatchType.subset ∨
      (Validator.validate none
          ⟨"e1".toList, "i".toList, some "abc".toList,
            ["h1".toList, "h2".toList]⟩ "xx abc yy".toList none).matchType =
        some MatchType.noMatch) ∧
    (Validator.validate none
        ⟨"e1".toList, "i".toList, some "abc".toList,
          ["h1".toList, "h2".toList]⟩ "xx abc yy".toList none).hints =
      (match (⟨"e1".toList, "i".toList, some "abc".toList,
          ["h1".toList, "h2".toList]⟩ : Exercise).hints with
       | [] => [] | h :: _ => [h]) :=
  ⟨by decide, c10_non_llm_hints_first_only _ _ none (by decide)⟩

/-! ## Claim C8 -/
/-- **C8.**  For every command whose stripped text is non-empty, whose
    first `shlex` token is not in the dispatch table and which does not
    match the Python-code heuristic, `simulate` with no LLM client returns
    a failure with exit code 127 and error `"Unknown command: "` followed
    by the (stripped) command; the simulator state is unchanged. -/
theorem c8_unknown_command_without_llm (sim : CommandSimulator)
    (cmd c0 : Str) (args : List Str) (llmR : SimulationResult)
    (hllm : sim.llmPresent = false)
    (hne : pstrip cmd ≠ [])
    (htab : c0 ∉ Sim.dispatchTable)
    (hpy : Sim.isPythonCode (pstrip cmd) = false) :
    Sim.simulate sim ⟨cmd, .ok (c0 :: args), llmR⟩ =
      (Sim.failErr ("Unknown command: ".toList ++ pstrip cmd) 127, sim) := by
  have h01 : ¬ c0 = "echo".toList := fun h => htab (by rw [h]; decide)
  have h02 : ¬ c0 = "ls".toList := fun h => htab (by rw [h]; decide)
  have h03 : ¬ c0 = "cat".toList := fun h => htab (by rw [h]; decide)
  have h04 : ¬ c0 = "mkdir".toList := fun h => htab (by rw [h]; decide)
  have h05 : ¬ c0 = "touch".toList := fun h => htab (by rw [h]; decide)
  have h06 : ¬ c0 = "cd".toList := fun h => htab (by rw [h]; decide)
  have h07 : ¬ c0 = "pwd".toList := fun h => htab (by rw [h]; decide)
  have h08 : ¬ (c0 = "python".toList ∨ c0 = "python3".toList) := by
    rintro (h | h) <;> exact htab (by rw [h]; decide)
  have h09 : ¬ (c0 = "pip".toList ∨ c0 = "pip3".toList) := by
    rintro (h | h) <;> exact htab (by rw [h]; decide)
  have h10 : ¬ c0 = "git".toList := fun h => htab (by rw [h]; decide)
  have h11 : ¬ c0 = "docker".toList := fun h => htab (by rw [h]; decide)
  have h12 : ¬ c0 = "kubectl".toList := fun h => htab (by rw [h]; decide)
  unfold Sim.simulate
  simp only [hpy, Bool.false_eq_true, if_false]
  rw [if_neg hne, if_neg h01, if_neg h02, if_neg h03, if_neg h04, if_neg h05,
    if_neg h06, if_neg h07, if_neg h08, if_neg h09, if_neg h10, if_neg h11,
    if_neg h12]
  unfold Sim.llmFallback
  rw [hllm]
  rfl

theorem c8_unknown_command_without_llm_witness :
    (Sim.initSim false).llmPresent = false ∧
    pstrip "frobnicate data".toList ≠ [] ∧
    "frobnicate".toList ∉ Sim.dispatchTable ∧
    Sim.isPythonCode (pstrip "frobnicate data".toList) = false ∧
    Sim.simulate (Sim.initSim false)
        ⟨"frobnicate data".toList,
         .ok ["frobnicate".toList, "data".toList], Sim.okOut []⟩ =
      (Sim.failErr ("Unknown command: ".toList ++
         pstrip "frobnicate data".toList) 127, Sim.initSim false) :=
  ⟨rfl, by decide, by decide, by decide,
   c8_unknown_command_without_llm (Sim.initSim false) _ _ _ _ rfl
     (by decide) (by decide) (by decide)⟩

theorem mem_addParentsAux_of_mem (fuel : Nat) (dirs parts : List Str) (x : Str)
    (hx : x ∈ dirs) : x ∈ VFS.addParentsAux fuel dirs parts := by
  induction fuel generalizing dirs parts with
  | zero => exact hx
  | succ n ih =>
    unfold VFS.addParentsAux
    split_ifs with h1 h2
    · exact hx
    · exact hx
    · exact ih _ _ (List.mem_append_left _ hx)

theorem mem_write_file_dirs (fs : VirtualFileSystem) (p c x : Str)
    (hx : x ∈ fs.directories) : x ∈ (VFS.write_file fs p c).directories := by
  show x ∈
    (if VFS.parentPath (VFS.normalize_path fs.current_dir p) ≠ [] ∧
        VFS.parentPath (VFS.normalize_path fs.current_dir p) ∉ fs.directories then
      fs.directories ++ [VFS.parentPath (VFS.normalize_path fs.current_dir p)]
    else fs.directories)
  split_ifs with h
  · exact List.mem_append_left _ hx
  · exact hx

theorem write_file_current_dir (fs : VirtualFileSystem) (p c : Str) :
    (VFS.write_file fs p c).current_dir = fs.current_dir := rfl

theorem mem_touch_dirs (fs : VirtualFileSystem) (p x : Str)
    (hx : x ∈ fs.directories) : x ∈ (VFS.touch fs p).directories := by
  unfold VFS.touch
  dsimp only
  split_ifs with h
  · exact hx
  · exact mem_write_file_dirs fs p [] x hx

theorem touch_current_dir (fs : VirtualFileSystem) (p : Str) :
    (VFS.touch fs p).current_dir = fs.current_dir := by
  unfold VFS.touch
  dsimp only
  split_ifs with h
  · rfl
  · rfl

theorem mem_create_directory_dirs (fs : VirtualFileSystem) (p x : Str)
    (hx : x ∈ fs.directories) : x ∈ (VFS.create_directory fs p).directories := by
  show x ∈ VFS.addParentsLoop
    (VFS.setAdd fs.directories (VFS.normalize_path fs.current_dir p)) _
  apply mem_addParentsAux_of_mem
  exact (VFS.mem_setAdd _ _ _).mpr (Or.inl hx)

theorem create_directory_current_dir (fs : VirtualFileSystem) (p : Str) :
    (VFS.create_directory fs p).current_dir = fs.current_dir := rfl

theorem simPythonImport_frame (sim : CommandSimulator) (code : Str) :
    (Sim.simPythonImport sim code).2.filesystem = sim.filesystem ∧
    (Sim.simPythonImport sim code).2.environment = sim.environment := by
  unfold Sim.simPythonImport
  split_ifs <;> exact ⟨rfl, rfl⟩

theorem simPythonCode_frame (sim : CommandSimulator) (c : Str)
    (r : SimulationResult) :
    (Sim.simPythonCode sim c r).2.filesystem = sim.filesystem ∧
    (Sim.simPythonCode sim c r).2.environment = sim.environment := by
  unfold Sim.simPythonCode
  dsimp only
  split_ifs with h
  · exact simPythonImport_frame sim (pstrip c)
  · cases hpg : Sim.printGroup (pstrip c) with
    | some g => exact ⟨rfl, rfl⟩
    | none =>
      cases hag : Sim.assignGroups (pstrip c) with
      | some nv => exact ⟨rfl, rfl⟩
      | none => exact ⟨rfl, rfl⟩

theorem simPythonCmd_frame (sim : CommandSimulator) (args : List Str)
    (r : SimulationResult) :
    (Sim.simPythonCmd sim args r).2.filesystem = sim.filesystem ∧
    (Sim.simPythonCmd sim args r).2.environment = sim.environment := by
  unfold Sim.simPythonCmd
  cases args with
  | nil => exact ⟨rfl, rfl⟩
  | cons a0 rest =>
    dsimp only
    split_ifs with h1 h2
    · exact simPythonCode_frame sim (rest.headD []) r
    · cases hrf : VFS.read_file sim.filesystem a0 with
      | some code => exact simPythonCode_frame sim code r
      | none => exact ⟨rfl, rfl⟩
    · exact ⟨rfl, rfl⟩

set_option maxHeartbeats 2000000 in
/-- One `simulate` call preserves the C9 invariant. -/
theorem simulate_preserves_inv (s : CommandSimulator) (inp : Sim.SimInput)
    (h : simInv s) : simInv (Sim.simulate s inp).2 := by
  obtain ⟨hcur, hhome, hmem⟩ := h
  unfold Sim.simulate
  dsimp only
  by_cases hemp : pstrip inp.cmd = []
  · rw [if_pos hemp]; exact ⟨hcur, hhome, hmem⟩
  · rw [if_neg hemp]
    cases inp.parse with
    | error e => exact ⟨hcur, hhome, hmem⟩
    | ok parts =>
      cases parts with
      | nil => exact ⟨hcur, hhome, hmem⟩
      | cons c0 args =>
      dsimp only
      by_cases h1 : c0 = "echo".toList
      · rw [if_pos h1]; exact ⟨hcur, hhome, hmem⟩
      rw [if_neg h1]
      by_cases h2 : c0 = "ls".toList
      · rw [if_pos h2]; exact ⟨hcur, hhome, hmem⟩
      rw [if_neg h2]
      by_cases h3 : c0 = "cat".toList
      · rw [if_pos h3]; exact ⟨hcur, hhome, hmem⟩
      rw [if_neg h3]
      by_cases h4 : c0 = "mkdir".toList
      · rw [if_pos h4]
        unfold Sim.simMkdir
        cases args with
        | nil => exact ⟨hcur, hhome, hmem⟩
        | cons path rest =>
          refine ⟨?_, hhome, ?_⟩
          · rw [create_directory_current_dir]
            exact mem_create_directory_dirs _ _ _ hcur
          · exact mem_create_directory_dirs _ _ _ hmem
      rw [if_neg h4]
      by_cases h5 : c0 = "touch".toList
      · rw [if_pos h5]
        unfold Sim.simTouch
        cases args with
        | nil => exact ⟨hcur, hhome, hmem⟩
        | cons path rest =>
          refine ⟨?_, hhome, ?_⟩
          · rw [touch_current_dir]
            exact mem_touch_dirs _ _ _ hcur
          · exact mem_touch_dirs _ _ _ hmem
      rw [if_neg h5]
      by_cases h6 : c0 = "cd".toList
      · rw [if_pos h6]
        unfold Sim.simCd
        cases args with
        | nil =>
          refine ⟨?_, hhome, hmem⟩
          show Sim.envGet s.environment "HOME".toList "/home/user".toList ∈
            s.filesystem.directories
          rw [hhome]
          exact hmem
        | cons path rest =>
          dsimp only
          split_ifs with hdir
          · refine ⟨?_, hhome, hmem⟩
            have hd : VFS.is_directory s.filesystem
                (VFS.normalize_path s.filesystem.current_dir path) = true := hdir
            unfold VFS.is_directory at hd
            rw [VFS.normalize_path_of_norm] at hd
            simpa using hd
          · exact ⟨hcur, hhome, hmem⟩
      rw [if_neg h6]
      by_cases h7 : c0 = "pwd".toList
      · rw [if_pos h7]; exact ⟨hcur, hhome, hmem⟩
      rw [if_neg h7]
      by_cases h8 : c0 = "python".toList ∨ c0 = "python3".toList
      · rw [if_pos h8]
        obtain ⟨hfs, henv⟩ := simPythonCmd_frame s args inp.llmRes
        exact ⟨hfs ▸ hcur, henv ▸ hhome, hfs ▸ hmem⟩
      rw [if_neg h8]
      by_cases h9 : c0 = "pip".toList ∨ c0 = "pip3".toList
      · rw [if_pos h9]; exact ⟨hcur, hhome, hmem⟩
      rw [if_neg h9]
      by_cases h10 : c0 = "git".toList
      · rw [if_pos h10]; exact ⟨hcur, hhome, hmem⟩
      rw [if_neg h10]
      by_cases h11 : c0 = "docker".toList
      · rw [if_pos h11]; exact ⟨hcur, hhome, hmem⟩
      rw [if_neg h11]
      by_cases h12 : c0 = "kubectl".toList
      · rw [if_pos h12]; exact ⟨hcur, hhome, hmem⟩
      rw [if_neg h12]
      by_cases h13 : Sim.isPythonCode (pstrip inp.cmd) = true
      · rw [if_pos h13]
        obtain ⟨hfs, henv⟩ := simPythonCode_frame s (pstrip inp.cmd) inp.llmRes
        exact ⟨hfs ▸ hcur, henv ▸ hhome, hfs ▸ hmem⟩
      rw [if_neg h13]
      exact ⟨hcur, hhome, hmem⟩

theorem runSim_preserves_inv (s : CommandSimulator) (inputs : List Sim.SimInput)
    (h : simInv s) : simInv (Sim.runSim s inputs) := by
  induction inputs generalizing s with
  | nil => exact h
  | cons inp rest ih => exact ih _ (simulate_preserves_inv s inp h)

theorem simInv_initSim (b : Bool) : simInv (Sim.initSim b) :=
  ⟨(by decide : VFS.init.current_dir ∈ VFS.init.directories),
   (by decide : Sim.envGet Sim.initEnv "HOME".toList "/home/user".toList =
      "/home/user".toList),
   (by decide : "/home/user".toList ∈ VFS.init.directories)⟩

/-- **C9.**  After any sequence of `simulate` calls starting from the
    initial state (with or without an LLM client — and `reset` rebuilds
    exactly this initial state, `Sim.reset s = Sim.initSim s.llmPresent`
    definitionally), the filesystem's `current_dir` is a member of
    `directories`. -/
theorem c9_current_dir_in_directories (b : Bool) (inputs : List Sim.SimInput) :
    (Sim.runSim (Sim.initSim b) inputs).filesystem.current_dir ∈
      (Sim.runSim (Sim.initSim b) inputs).filesystem.directories :=
  (runSim_preserves_inv (Sim.initSim b) inputs (simInv_initSim b)).1

namespace Session

theorem modifyAt_length (l : List α) (i : Nat) (f : α → α) :
    (modifyAt l i f).length = l.length := by
  induction l generalizing i with
  | nil => rfl
  | cons x xs ih =>
    cases i with
    | zero => rfl
    | succ n => simp [modifyAt, ih]

theorem get?_modifyAt_same (l : List α) (i : Nat) (f : α → α) :
    (modifyAt l i f).get? i = (l.get? i).map f := by
  induction l generalizing i with
  | nil => rfl
  | cons x xs ih =>
    cases i with
    | zero => rfl
    | succ n => simpa [modifyAt] using ih n

theorem get?_modifyAt_other (l : List α) (i j : Nat) (f : α → α) (h : j ≠ i) :
    (modifyAt l i f).get? j = l.get? j := by
  induction l generalizing i j with
  | nil => rfl
  | cons x xs ih =>
    cases i with
    | zero =>
      cases j with
      | zero => exact absurd rfl h
      | succ m => rfl
    | succ n =>
      cases j with
      | zero => rfl
      | succ m => simpa [modifyAt] using ih n m (fun hh => h (by rw [hh]))

theorem getExP_updExP_same (st : SMState) (li ei : Nat)
    (f : ExerciseProgress → ExerciseProgress) :
    getExP (updExP st li ei f) li ei = (getExP st li ei).map f := by
  show ((modifyAt st.session.progress.lesson_progress li _).get? li).bind _ =
    ((st.session.progress.lesson_progress.get? li).bind _).map f
  rw [get?_modifyAt_same]
  cases st.session.progress.lesson_progress.get? li with
  | none => rfl
  | some lp =>
    show (modifyAt lp.exercise_progress ei f).get? ei =
      (lp.exercise_progress.get? ei).map f
    rw [get?_modifyAt_same]

theorem getExP_updExP_other (st : SMState) (li ei li2 ei2 : Nat)
    (f : ExerciseProgress → ExerciseProgress) (h : li2 ≠ li ∨ ei2 ≠ ei) :
    getExP (updExP st li ei f) li2 ei2 = getExP st li2 ei2 := by
  rcases h with h | h
  · show ((modifyAt st.session.progress.lesson_progress li _).get? li2).bind _ =
      (st.session.progress.lesson_progress.get? li2).bind _
    rw [get?_modifyAt_other _ _ _ _ h]
  · by_cases hli : li2 = li
    · subst hli
      show ((modifyAt st.session.progress.lesson_progress li2 _).get? li2).bind _ =
        (st.session.progress.lesson_progress.get? li2).bind _
      rw [get?_modifyAt_same]
      cases st.session.progress.lesson_progress.get? li2 with
      | none => rfl
      | some lp =>
        show (modifyAt lp.exercise_progress ei f).get? ei2 =
          lp.exercise_progress.get? ei2
        rw [get?_modifyAt_other _ _ _ _ h]
    · show ((modifyAt st.session.progress.lesson_progress li _).get? li2).bind _ =
        (st.session.progress.lesson_progress.get? li2).bind _
      rw [get?_modifyAt_other _ _ _ _ hli]

theorem getLessonP_shape_updExP (st : SMState) (li ei : Nat)
    (f : ExerciseProgress → ExerciseProgress) (li2 : Nat) :
    (getLessonP (updExP st li ei f) li2).map lpShape =
      (getLessonP st li2).map lpShape := by
  by_cases hli : li2 = li
  · subst hli
    show ((modifyAt st.session.progress.lesson_progress li2 _).get? li2).map _ =
      (st.session.progress.lesson_progress.get? li2).map _
    rw [get?_modifyAt_same]
    cases st.session.progress.lesson_progress.get? li2 with
    | none => rfl
    | some lp =>
      show some (lp.lesson_id, lp.status, (modifyAt lp.exercise_progress ei f).length) =
        some (lp.lesson_id, lp.status, lp.exercise_progress.length)
      rw [modifyAt_length]
  · show ((modifyAt st.session.progress.lesson_progress li _).get? li2).map _ =
      (st.session.progress.lesson_progress.get? li2).map _
    rw [get?_modifyAt_other _ _ _ _ hli]

/-- Exact-copy answers hit the first pattern tier regardless of the LLM
    client: the pattern result short-circuits before any LLM use. -/
theorem validate_strip_exact (llm : Option Validator.LLMValidate)
    (ex : Exercise) (e : Str) (ctx : Option Str)
    (hex : ex.expected_output = some e) (hne : pstrip e ≠ []) :
    Validator.validate llm ex (pstrip e) ctx =
      ⟨ValidationStatus.correct, 1, Validator.fbCorrect, [],
        some MatchType.exact⟩ := by
  unfold Validator.validate
  rw [pstrip_idem]
  simp only [hex]
  rw [if_neg hne, if_pos (decide_eq_true (pstrip_ne_nil_of e hne))]
  unfold Validator.validate_with_pattern
  simp only [hex]
  simp

theorem getExP_saveProgress (st : SMState) (li ei : Nat) :
    getExP (saveProgress st) li ei = getExP st li ei := rfl

theorem getExP_setSim (st : SMState) (sim : CommandSimulator) (li ei : Nat) :
    getExP { st with simulator := sim } li ei = getExP st li ei := rfl

theorem getExP_setHint (st : SMState) (n : Nat) (li ei : Nat) :
    getExP { st with hint_count := n } li ei = getExP st li ei := rfl

theorem getLessonP_saveProgress (st : SMState) (li : Nat) :
    getLessonP (saveProgress st) li = getLessonP st li := rfl

theorem getLessonP_setSim (st : SMState) (sim : CommandSimulator) (li : Nat) :
    getLessonP { st with simulator := sim } li = getLessonP st li := rfl

theorem getLessonP_setHint (st : SMState) (n : Nat) (li : Nat) :
    getLessonP { st with hint_count := n } li = getLessonP st li := rfl

/-- The first loop iteration on a `goodAnswer` exact copy of the expected
    output: mark in-progress, simulate, bump attempts, validate CORRECT,
    mark completed, persist. -/
theorem runExercise_correct_eq (oc : Oracles) (ex : Exercise) (li ei : Nat)
    (st : SMState) (e : Str) (rest : List Str)
    (hex : ex.expected_output = some e) (hg : goodAnswer e) :
    runExercise oc ex li ei st (e :: rest) =
      (.completedEx,
       saveProgress (updExP (updExP
         { (updExP { st with hint_count := 0 } li ei
             (fun p => { p with status := ProgressStatus.in_progress })) with
           simulator := (Sim.simulate
             (updExP { st with hint_count := 0 } li ei
               (fun p => { p with status := ProgressStatus.in_progress })).simulator
             ⟨pstrip e, oc.parse (pstrip e), oc.simLLM (pstrip e)⟩).2 } li ei
         (fun p => { p with attempts := p.attempts + 1,
                            user_answer := some (pstrip e) })) li ei
         (fun p => { p with status := ProgressStatus.completed,
                            completed_at := some () })),
       rest) := by
  obtain ⟨hg1, hg2, hg3⟩ := hg
  have hpa : processAnswer e = pstrip e := by
    unfold processAnswer
    dsimp only
    rw [if_neg hg2]
  unfold runExercise
  simp only [runExerciseLoop, hpa]
  rw [if_neg hg3,
    validate_strip_exact oc.valLLM ex e (some ex.instruction) hex hg1]
  rfl

/-- Packaging of `runExercise_correct_eq`: the frame facts the lesson-level
    induction needs. -/
theorem runExercise_correct (oc : Oracles) (ex : Exercise) (li ei : Nat)
    (st : SMState) (e : Str) (rest : List Str)
    (hex : ex.expected_output = some e) (hg : goodAnswer e) :
    ∃ st3, runExercise oc ex li ei st (e :: rest) = (.completedEx, st3, rest) ∧
      st3.session.course = st.session.course ∧
      st3.session.state = st.session.state ∧
      st3.session.progress.current_lesson_index =
        st.session.progress.current_lesson_index ∧
      (∀ li2 ei2, li2 ≠ li ∨ ei2 ≠ ei → getExP st3 li2 ei2 = getExP st li2 ei2) ∧
      (∀ li2, (getLessonP st3 li2).map lpShape = (getLessonP st li2).map lpShape) ∧
      st3.session.progress.lesson_progress.length =
        st.session.progress.lesson_progress.length ∧
      (getExP st3 li ei).map (fun p => p.status) =
        (getExP st li ei).map (fun _ => ProgressStatus.completed) := by
  refine ⟨_, runExercise_correct_eq oc ex li ei st e rest hex hg,
    rfl, rfl, rfl, ?_, ?_, ?_, ?_⟩
  · intro li2 ei2 h
    rw [getExP_saveProgress, getExP_updExP_other _ _ _ _ _ _ h,
      getExP_updExP_other _ _ _ _ _ _ h, getExP_setSim,
      getExP_updExP_other _ _ _ _ _ _ h, getExP_setHint]
  · intro li2
    rw [getLessonP_saveProgress, getLessonP_shape_updExP,
      getLessonP_shape_updExP]
    show (getLessonP (updExP { st with hint_count := 0 } li ei _) li2).map _ = _
    rw [getLessonP_shape_updExP, getLessonP_setHint]
  · show (modifyAt (modifyAt _ _ _) _ _).length = _
    rw [modifyAt_length]
    show (modifyAt _ _ _).length = _
    rw [modifyAt_length]
    show (modifyAt _ _ _).length = _
    rw [modifyAt_length]
  · rw [getExP_saveProgress, getExP_updExP_same, getExP_updExP_same,
      getExP_setSim, getExP_updExP_same, getExP_setHint]
    cases getExP st li ei with
    | none => rfl
    | some p => rfl

/-- Entering `skip` marks the exercise failed, persists, and moves on. -/
theorem runExercise_skip (oc : Oracles) (ex : Exercise) (li ei : Nat)
    (st : SMState) (rest : List Str) :
    runExercise oc ex li ei st ("skip".toList :: rest) =
      (.skippedEx,
       saveProgress (updExP (updExP { st with hint_count := 0 } li ei
         (fun p => { p with status := ProgressStatus.in_progress })) li ei
         (fun p => { p with status := ProgressStatus.failed })),
       rest) := rfl

theorem lessonFrame_refl (li : Nat) (st : SMState) : lessonFrame li st st :=
  ⟨rfl, rfl, rfl, fun _ _ _ => rfl, fun _ => rfl, rfl⟩

theorem lessonFrame_trans (li : Nat) (st1 st2 st3 : SMState)
    (h1 : lessonFrame li st1 st2) (h2 : lessonFrame li st2 st3) :
    lessonFrame li st1 st3 :=
  ⟨h2.1.trans h1.1, h2.2.1.trans h1.2.1, h2.2.2.1.trans h1.2.2.1,
   fun li2 ei2 h => (h2.2.2.2.1 li2 ei2 h).trans (h1.2.2.2.1 li2 ei2 h),
   fun li2 => (h2.2.2.2.2.1 li2).trans (h1.2.2.2.2.1 li2),
   h2.2.2.2.2.2.trans h1.2.2.2.2.2⟩

theorem updExP_length (st : SMState) (li ei : Nat)
    (f : ExerciseProgress → ExerciseProgress) :
    (updExP st li ei f).session.progress.lesson_progress.length =
      st.session.progress.lesson_progress.length := by
  show (modifyAt _ _ _).length = _
  rw [modifyAt_length]

theorem getExP_setExId (st : SMState) (x : Option Str) (li ei : Nat) :
    getExP { st with session := { st.session with current_exercise_id := x } }
      li ei = getExP st li ei := rfl

/-- Running all exercises of a lesson, every one fresh and answered with
    its exact (good) expected output, finishes and consumes exactly those
    answers. -/
theorem runLessonExercisesAux_all_good (oc : Oracles) (li : Nat)
    (exs : List Exercise) (ei : Nat) (st : SMState) (rest : List Str)
    (hget : ∀ j, j < exs.length → ∃ p, getExP st li (ei + j) = some p ∧
        p.status ≠ ProgressStatus.completed ∧ p.status ≠ ProgressStatus.failed)
    (hgood : ∀ ex ∈ exs, goodExercise ex) :
    ∃ st2, runLessonExercisesAux oc li exs ei st
        (exs.map (fun ex => ex.expected_output.getD []) ++ rest) =
      (.finished, st2, rest) ∧
      lessonFrame li st st2 ∧
      ∀ ei2, ei2 < ei → getExP st2 li ei2 = getExP st li ei2 := by
  induction exs generalizing ei st with
  | nil =>
    exact ⟨st, by simp [runLessonExercisesAux], lessonFrame_refl li st,
      fun _ _ => rfl⟩
  | cons ex exs ih =>
    obtain ⟨p, hp, hpc, hpf⟩ := hget 0 (by simp)
    rw [Nat.add_zero] at hp
    obtain ⟨e, hex, hge⟩ := hgood ex (by simp)
    have hexd : ex.expected_output.getD [] = e := by rw [hex]; rfl
    have hcond : ¬ (p.status = ProgressStatus.completed ∨
        p.status = ProgressStatus.failed) := by
      rintro (h | h)
      · exact hpc h
      · exact hpf h
    -- the state after setting current_exercise_id and resetting the simulator
    set stA : SMState :=
      { st with
          session := { st.session with current_exercise_id := some ex.id },
          simulator := Sim.reset st.simulator } with hstA
    have hA1 : ∀ li2 ei2, getExP stA li2 ei2 = getExP st li2 ei2 :=
      fun _ _ => rfl
    have hA2 : lessonFrame li st stA :=
      ⟨rfl, rfl, rfl, fun _ _ _ => rfl, fun _ => rfl, rfl⟩
    obtain ⟨st3, heq3, hc3, hs3, hi3, ho3, hl3, hlen3, hstat3⟩ :=
      runExercise_correct oc ex li ei stA e
        (exs.map (fun ex => ex.expected_output.getD []) ++ rest) hex hge
    have hframe3 : lessonFrame li stA st3 :=
      ⟨hc3, hs3, hi3, fun li2 ei2 h => ho3 li2 ei2 (Or.inl h), hl3, hlen3⟩
    have hget' : ∀ j, j < exs.length → ∃ q, getExP st3 li (ei + 1 + j) = some q ∧
        q.status ≠ ProgressStatus.completed ∧ q.status ≠ ProgressStatus.failed := by
      intro j hj
      obtain ⟨q, hq, hqc, hqf⟩ := hget (j + 1) (by simpa using Nat.succ_lt_succ hj)
      refine ⟨q, ?_, hqc, hqf⟩
      rw [ho3 li (ei + 1 + j) (Or.inr (by omega)), hA1]
      rw [show ei + 1 + j = ei + (j + 1) by omega]
      exact hq
    obtain ⟨stf, heqf, hframef, hpref⟩ :=
      ih (ei + 1) st3 hget' (fun x hx => hgood x (by simp [hx]))
    refine ⟨stf, ?_,
      lessonFrame_trans li st st3 stf
        (lessonFrame_trans li st stA st3 hA2 hframe3) hframef, ?_⟩
    · rw [List.map_cons, List.cons_append, hexd]
      simp only [runLessonExercisesAux]
      rw [hp]
      dsimp only
      rw [if_neg hcond, heq3]
      exact heqf
    · intro ei2 hei2
      rw [hpref ei2 (by omega), ho3 li ei2 (Or.inr (by omega)), hA1]

/-- Packaging of `runExercise_skip`: the skipped exercise's progress ends
    `failed`, everything else is framed. -/
theorem runExercise_skip_facts (oc : Oracles) (ex : Exercise) (li ei : Nat)
    (st : SMState) (rest : List Str) :
    ∃ st3, runExercise oc ex li ei st ("skip".toList :: rest) =
        (.skippedEx, st3, rest) ∧
      st3.session.course = st.session.course ∧
      st3.session.state = st.session.state ∧
      st3.session.progress.current_lesson_index =
        st.session.progress.current_lesson_index ∧
      (∀ li2 ei2, li2 ≠ li ∨ ei2 ≠ ei → getExP st3 li2 ei2 = getExP st li2 ei2) ∧
      (∀ li2, (getLessonP st3 li2).map lpShape = (getLessonP st li2).map lpShape) ∧
      st3.session.progress.lesson_progress.length =
        st.session.progress.lesson_progress.length ∧
      (getExP st3 li ei).map (fun p => p.status) =
        (getExP st li ei).map (fun _ => ProgressStatus.failed) := by
  refine ⟨_, runExercise_skip oc ex li ei st rest,
    rfl, rfl, rfl, ?_, ?_, ?_, ?_⟩
  · intro li2 ei2 h
    rw [getExP_saveProgress, getExP_updExP_other _ _ _ _ _ _ h,
      getExP_updExP_other _ _ _ _ _ _ h, getExP_setHint]
  · intro li2
    rw [getLessonP_saveProgress, getLessonP_shape_updExP,
      getLessonP_shape_updExP, getLessonP_setHint]
  · show (modifyAt (modifyAt _ _ _) _ _).length = _
    rw [modifyAt_length]
    show (modifyAt _ _ _).length = _
    rw [modifyAt_length]
  · rw [getExP_saveProgress, getExP_updExP_same, getExP_updExP_same,
      getExP_setHint]
    cases getExP st li ei with
    | none => rfl
    | some p => rfl

/-- Exercises whose progress is already `completed` or `failed` are
    passed over without consuming any input. -/
theorem runLessonExercisesAux_passes_done (oc : Oracles) (li : Nat)
    (exsA : List Exercise) (exsB : List Exercise) :
    ∀ (ei : Nat) (st : SMState) (answers : List Str),
    (∀ j, j < exsA.length → ∃ p, getExP st li (ei + j) = some p ∧
      (p.status = ProgressStatus.completed ∨
        p.status = ProgressStatus.failed)) →
    runLessonExercisesAux oc li (exsA ++ exsB) ei st answers =
      runLessonExercisesAux oc li exsB (ei + exsA.length) st answers := by
  induction exsA with
  | nil => intro ei st answers _; rfl
  | cons ex exs ih =>
    intro ei st answers hdone
    obtain ⟨p, hp, hps⟩ := hdone 0 (by simp)
    rw [Nat.add_zero] at hp
    show runLessonExercisesAux oc li (ex :: (exs ++ exsB)) ei st answers = _
    simp only [runLessonExercisesAux]
    rw [hp]
    dsimp only
    rw [if_pos hps]
    have hdone2 : ∀ j, j < exs.length → ∃ q,
        getExP st li (ei + 1 + j) = some q ∧
        (q.status = ProgressStatus.completed ∨
          q.status = ProgressStatus.failed) := by
      intro j hj
      obtain ⟨q, hq, hqs⟩ := hdone (j + 1) (Nat.succ_lt_succ hj)
      refine ⟨q, ?_, hqs⟩
      rw [show ei + 1 + j = ei + (j + 1) by omega]
      exact hq
    rw [ih (ei + 1) st answers hdone2,
      show ei + 1 + exs.length = ei + (ex :: exs).length by
        simp [List.length_cons]; omega]

/-- Skipping a fresh exercise and then answering the remaining fresh
    exercises exactly: the loop finishes, the skipped exercise ends
    `failed`. -/
theorem runLessonExercisesAux_skip_then_good (oc : Oracles) (li : Nat)
    (ex : Exercise) (exsB : List Exercise) (ei : Nat) (st : SMState)
    (rest : List Str)
    (hfresh : ∀ j, j < (ex :: exsB).length → ∃ p,
      getExP st li (ei + j) = some p ∧
      p.status ≠ ProgressStatus.completed ∧
      p.status ≠ ProgressStatus.failed)
    (hgood : ∀ e2 ∈ exsB, goodExercise e2) :
    ∃ st2, runLessonExercisesAux oc li (ex :: exsB) ei st
        ("skip".toList ::
          (exsB.map (fun e2 => e2.expected_output.getD []) ++ rest)) =
      (.finished, st2, rest) ∧
      lessonFrame li st st2 ∧
      (getExP st2 li ei).map (fun p => p.status) =
        some ProgressStatus.failed := by
  obtain ⟨p, hp, hpc, hpf⟩ := hfresh 0 (by simp)
  rw [Nat.add_zero] at hp
  have hcond : ¬ (p.status = ProgressStatus.completed ∨
      p.status = ProgressStatus.failed) := by
    rintro (h | h)
    · exact hpc h
    · exact hpf h
  set stA : SMState :=
    { st with
        session := { st.session with current_exercise_id := some ex.id },
        simulator := Sim.reset st.simulator } with hstA
  have hA1 : ∀ li2 ei2, getExP stA li2 ei2 = getExP st li2 ei2 :=
    fun _ _ => rfl
  have hA2 : lessonFrame li st stA :=
    ⟨rfl, rfl, rfl, fun _ _ _ => rfl, fun _ => rfl, rfl⟩
  obtain ⟨st3, heq3, hc3, hs3, hi3, ho3, hl3, hlen3, hstat3⟩ :=
    runExercise_skip_facts oc ex li ei stA
      (exsB.map (fun e2 => e2.expected_output.getD []) ++ rest)
  have hframe3 : lessonFrame li stA st3 :=
    ⟨hc3, hs3, hi3, fun li2 ei2 h => ho3 li2 ei2 (Or.inl h), hl3, hlen3⟩
  have hget2 : ∀ j, j < exsB.length → ∃ q,
      getExP st3 li (ei + 1 + j) = some q ∧
      q.status ≠ ProgressStatus.completed ∧
      q.status ≠ ProgressStatus.failed := by
    intro j hj
    obtain ⟨q, hq, hqc, hqf⟩ := hfresh (j + 1) (Nat.succ_lt_succ hj)
    refine ⟨q, ?_, hqc, hqf⟩
    rw [ho3 li (ei + 1 + j) (Or.inr (by omega)), hA1]
    rw [show ei + 1 + j = ei + (j + 1) by omega]
    exact hq
  obtain ⟨stf, heqf, hframef, hpref⟩ :=
    runLessonExercisesAux_all_good oc li exsB (ei + 1) st3 rest hget2 hgood
  refine ⟨stf, ?_,
    lessonFrame_trans li st st3 stf
      (lessonFrame_trans li st stA st3 hA2 hframe3) hframef, ?_⟩
  · simp only [runLessonExercisesAux]
    rw [hp]
    dsimp only
    rw [if_neg hcond, heq3]
    exact heqf
  · rw [hpref ei (by omega), hstat3, hA1, hp]
    rfl

/-! ### Bookkeeping facts about `updLessonP` and `markLessonComplete` -/
theorem getLessonP_updLessonP_same (st : SMState) (li : Nat)
    (f : LessonProgress → LessonProgress) :
    getLessonP (updLessonP st li f) li = (getLessonP st li).map f := by
  show (modifyAt st.session.progress.lesson_progress li f).get? li = _
  rw [get?_modifyAt_same]
  rfl

theorem getLessonP_updLessonP_other (st : SMState) (li li2 : Nat)
    (f : LessonProgress → LessonProgress) (h : li2 ≠ li) :
    getLessonP (updLessonP st li f) li2 = getLessonP st li2 := by
  show (modifyAt st.session.progress.lesson_progress li f).get? li2 = _
  rw [get?_modifyAt_other _ _ _ _ h]
  rfl

theorem getExP_updLessonP (st : SMState) (li : Nat)
    (f : LessonProgress → LessonProgress)
    (hf : ∀ lp, (f lp).exercise_progress = lp.exercise_progress)
    (li2 ei2 : Nat) :
    getExP (updLessonP st li f) li2 ei2 = getExP st li2 ei2 := by
  by_cases h : li2 = li
  · subst h
    show ((getLessonP (updLessonP st li2 f) li2).bind
        (fun lp => lp.exercise_progress.get? ei2)) =
      ((getLessonP st li2).bind (fun lp => lp.exercise_progress.get? ei2))
    rw [getLessonP_updLessonP_same]
    cases getLessonP st li2 with
    | none => rfl
    | some lp =>
      show (f lp).exercise_progress.get? ei2 = lp.exercise_progress.get? ei2
      rw [hf]
  · show ((getLessonP (updLessonP st li f) li2).bind
        (fun lp => lp.exercise_progress.get? ei2)) =
      ((getLessonP st li2).bind (fun lp => lp.exercise_progress.get? ei2))
    rw [getLessonP_updLessonP_other _ _ _ _ h]

theorem updLessonP_length (st : SMState) (li : Nat)
    (f : LessonProgress → LessonProgress) :
    (updLessonP st li f).session.progress.lesson_progress.length =
      st.session.progress.lesson_progress.length := by
  show (modifyAt _ _ _).length = _
  rw [modifyAt_length]

theorem findFirstIdx_le (pred : α → Bool) (l : List α) (i : Nat) (x : α)
    (hx : l.get? i = some x) (hpx : pred x = true) :
    ∃ m, findFirstIdx pred l = some m ∧ m ≤ i := by
  induction l generalizing i with
  | nil => simp at hx
  | cons a as ih =>
    by_cases hpa : pred a
    · exact ⟨0, by simp [findFirstIdx, hpa], Nat.zero_le i⟩
    · cases i with
      | zero =>
        have : a = x := by simpa using hx
        subst this
        exact absurd hpx (by simpa using hpa)
      | succ n =>
        obtain ⟨m, hm, hle⟩ := ih n (by simpa using hx)
        exact ⟨m + 1, by simp [findFirstIdx, hpa, hm], Nat.succ_le_succ hle⟩

/-- `markLessonComplete` never touches exercise lists, lesson ids or
    lengths. -/
theorem mark_get?_idlenex (p : CourseProgress) (lid : Str) (j : Nat) :
    ((markLessonComplete p lid).lesson_progress.get? j).map
        (fun lp => (lp.lesson_id, lp.exercise_progress)) =
      (p.lesson_progress.get? j).map
        (fun lp => (lp.lesson_id, lp.exercise_progress)) := by
  unfold markLessonComplete
  cases hfi : findFirstIdx (fun lp => lp.lesson_id = lid) p.lesson_progress with
  | none => rfl
  | some i =>
    show ((modifyAt p.lesson_progress i _).get? j).map _ = _
    by_cases hj : j = i
    · subst hj
      rw [get?_modifyAt_same]
      cases p.lesson_progress.get? j with
      | none => rfl
      | some lp => rfl
    · rw [get?_modifyAt_other _ _ _ _ hj]

theorem mark_length (p : CourseProgress) (lid : Str) :
    (markLessonComplete p lid).lesson_progress.length =
      p.lesson_progress.length := by
  unfold markLessonComplete
  cases hfi : findFirstIdx (fun lp => lp.lesson_id = lid) p.lesson_progress with
  | none => rfl
  | some i =>
    show (modifyAt p.lesson_progress i _).length = _
    rw [modifyAt_length]

/-- `markLessonComplete` keeps completed lessons completed. -/
theorem mark_status_completed_of (p : CourseProgress) (lid : Str) (j : Nat)
    (h : (p.lesson_progress.get? j).map (fun lp => lp.status) =
      some ProgressStatus.completed) :
    ((markLessonComplete p lid).lesson_progress.get? j).map
      (fun lp => lp.status) = some ProgressStatus.completed := by
  unfold markLessonComplete
  cases hfi : findFirstIdx (fun lp => lp.lesson_id = lid) p.lesson_progress with
  | none => exact h
  | some i =>
    show ((modifyAt p.lesson_progress i _).get? j).map _ = _
    by_cases hj : j = i
    · subst hj
      rw [get?_modifyAt_same]
      cases hpj : p.lesson_progress.get? j with
      | none => rw [hpj] at h; simp at h
      | some lp => rfl
    · rw [get?_modifyAt_other _ _ _ _ hj]
      exact h

/-- When some index at or below `i` matches the id, `markLessonComplete`
    does not touch statuses strictly above `i`. -/
theorem mark_status_higher (p : CourseProgress) (lid : Str) (i : Nat)
    (x : LessonProgress) (hi : p.lesson_progress.get? i = some x)
    (hx : x.lesson_id = lid) (j : Nat) (hj : i < j) :
    ((markLessonComplete p lid).lesson_progress.get? j).map
        (fun lp => lp.status) =
      (p.lesson_progress.get? j).map (fun lp => lp.status) := by
  obtain ⟨m, hm, hle⟩ := findFirstIdx_le (fun lp => lp.lesson_id = lid)
    p.lesson_progress i x hi (by simp [hx])
  unfold markLessonComplete
  rw [hm]
  show ((modifyAt p.lesson_progress m _).get? j).map _ = _
  rw [get?_modifyAt_other _ _ _ _ (by omega)]

/-- Equal shapes give equal statuses. -/
theorem shape_status (o1 o2 : Option LessonProgress)
    (h : o1.map lpShape = o2.map lpShape) :
    o1.map (fun lp => lp.status) = o2.map (fun lp => lp.status) := by
  cases o1 with
  | none =>
    cases o2 with
    | none => rfl
    | some lp => simp at h
  | some lp1 =>
    cases o2 with
    | none => simp at h
    | some lp2 =>
      simp [lpShape] at h
      simp [h.2.1]

/-- Equal shapes give equal id/length pairs. -/
theorem shape_idlen (o1 o2 : Option LessonProgress)
    (h : o1.map lpShape = o2.map lpShape) :
    o1.map (fun lp => (lp.lesson_id, lp.exercise_progress.length)) =
      o2.map (fun lp => (lp.lesson_id, lp.exercise_progress.length)) := by
  cases o1 with
  | none =>
    cases o2 with
    | none => rfl
    | some lp => simp at h
  | some lp1 =>
    cases o2 with
    | none => simp at h
    | some lp2 =>
      simp [lpShape] at h
      simp [h.1, h.2.2]

/-- Equal id/exercise-list pairs give equal id/length pairs. -/
theorem idex_idlen (o1 o2 : Option LessonProgress)
    (h : o1.map (fun lp => (lp.lesson_id, lp.exercise_progress)) =
      o2.map (fun lp => (lp.lesson_id, lp.exercise_progress))) :
    o1.map (fun lp => (lp.lesson_id, lp.exercise_progress.length)) =
      o2.map (fun lp => (lp.lesson_id, lp.exercise_progress.length)) := by
  cases o1 with
  | none =>
    cases o2 with
    | none => rfl
    | some lp => simp at h
  | some lp1 =>
    cases o2 with
    | none => simp at h
    | some lp2 =>
      simp at h
      simp [h.1, h.2]

/-- Equal id/exercise-list pairs give equal exercise lookups. -/
theorem idex_exget (o1 o2 : Option LessonProgress) (ei : Nat)
    (h : o1.map (fun lp => (lp.lesson_id, lp.exercise_progress)) =
      o2.map (fun lp => (lp.lesson_id, lp.exercise_progress))) :
    o1.bind (fun lp => lp.exercise_progress.get? ei) =
      o2.bind (fun lp => lp.exercise_progress.get? ei) := by
  cases o1 with
  | none =>
    cases o2 with
    | none => rfl
    | some lp => simp at h
  | some lp1 =>
    cases o2 with
    | none => simp at h
    | some lp2 =>
      simp at h
      show lp1.exercise_progress.get? ei = lp2.exercise_progress.get? ei
      rw [h.2]

/-- Processing one fully-fresh lesson whose exercises are all answerable
    by their exact expected outputs: the lesson ends `completed`, exactly
    its answers (plus one continue confirmation, unless it is the last
    lesson) are consumed, and every other lesson's bookkeeping survives. -/
theorem processLesson_all_good (oc : Oracles) (li : Nat) (st : SMState)
    (lesson : Lesson) (lp0 : LessonProgress) (rest : List Str)
    (conts : List Bool)
    (hles : st.session.course.lessons.get? li = some lesson)
    (hlp : getLessonP st li = some lp0)
    (hstat : lp0.status ≠ ProgressStatus.completed)
    (hid : lp0.lesson_id = lesson.id)
    (hget : ∀ j, j < lesson.exercises.length → ∃ p, getExP st li j = some p ∧
        p.status ≠ ProgressStatus.completed ∧ p.status ≠ ProgressStatus.failed)
    (hgood : ∀ ex ∈ lesson.exercises, goodExercise ex)
    (hconts : li < st.session.course.lessons.length - 1 →
      ∃ c2, conts = true :: c2) :
    ∃ st5 conts2,
      processLesson oc li st
          (lesson.exercises.map (fun ex => ex.expected_output.getD []) ++ rest)
          conts =
        (.finished, st5, rest, conts2) ∧
      ((li < st.session.course.lessons.length - 1 ∧ conts = true :: conts2) ∨
        (¬ li < st.session.course.lessons.length - 1 ∧ conts2 = conts)) ∧
      st5.session.course = st.session.course ∧
      st5.session.state = st.session.state ∧
      st5.session.progress.lesson_progress.length =
        st.session.progress.lesson_progress.length ∧
      (getLessonP st5 li).map (fun lp => lp.status) =
        some ProgressStatus.completed ∧
      (∀ j, j ≠ li → (getLessonP st5 j).map
          (fun lp => (lp.lesson_id, lp.exercise_progress.length)) =
        (getLessonP st j).map
          (fun lp => (lp.lesson_id, lp.exercise_progress.length))) ∧
      (∀ j, li < j → (getLessonP st5 j).map (fun lp => lp.status) =
        (getLessonP st j).map (fun lp => lp.status)) ∧
      (∀ j, (getLessonP st j).map (fun lp => lp.status) =
          some ProgressStatus.completed →
        (getLessonP st5 j).map (fun lp => lp.status) =
          some ProgressStatus.completed) ∧
      (∀ j ei2, j ≠ li → getExP st5 j ei2 = getExP st j ei2) := by
  classical
  -- the state after `current_lesson_index := li`
  set st0 : SMState :=
    { st with session := { st.session with progress :=
        { st.session.progress with current_lesson_index := li } } } with hst0
  -- `_run_lessons` body: mark in-progress, set current_lesson_id
  set gIn : LessonProgress → LessonProgress := fun l =>
    { l with status := ProgressStatus.in_progress,
             started_at := if l.started_at = none then some () else l.started_at }
    with hgIn
  set st1 : SMState := updLessonP st0 li gIn with hst1
  set st2 : SMState :=
    { st1 with session := { st1.session with
        current_lesson_id := some lesson.id } } with hst2
  have hEx2 : ∀ li2 ei2, getExP st2 li2 ei2 = getExP st li2 ei2 := by
    intro li2 ei2
    show getExP (updLessonP st0 li gIn) li2 ei2 = getExP st li2 ei2
    rw [getExP_updLessonP st0 li gIn (fun lp => rfl) li2 ei2, hst0]
    rfl
  have hget2 : ∀ j, j < lesson.exercises.length → ∃ p,
      getExP st2 li (0 + j) = some p ∧
      p.status ≠ ProgressStatus.completed ∧
      p.status ≠ ProgressStatus.failed := by
    intro j hj
    obtain ⟨p, hp, h1, h2⟩ := hget j hj
    exact ⟨p, by rw [Nat.zero_add, hEx2]; exact hp, h1, h2⟩
  obtain ⟨st3, hrun, hframe, _⟩ :=
    runLessonExercisesAux_all_good oc li lesson.exercises 0 st2 rest hget2 hgood
  obtain ⟨hc3, hs3, hi3, ho3, hl3, hlen3⟩ := hframe
  -- shape of the lesson progress at `li` after the exercise loop
  have hlp2 : getLessonP st2 li = some (gIn lp0) := by
    show getLessonP (updLessonP st0 li gIn) li = _
    rw [getLessonP_updLessonP_same]
    have hlp0 : getLessonP st0 li = some lp0 := hlp
    rw [hlp0]
    rfl
  have hl3li := hl3 li
  rw [hlp2] at hl3li
  cases h3li : getLessonP st3 li with
  | none => rw [h3li] at hl3li; simp at hl3li
  | some lp3 =>
  rw [h3li] at hl3li
  have hshape3 : lpShape lp3 = lpShape (gIn lp0) := by simpa using hl3li
  have hid3 : lp3.lesson_id = lp0.lesson_id := congrArg Prod.fst hshape3
  -- the completed marker and the final states
  set g4 : LessonProgress → LessonProgress := fun l =>
    { l with status := ProgressStatus.completed, completed_at := some () }
    with hg4
  set st4 : SMState := updLessonP st3 li g4 with hst4
  set st5 : SMState :=
    { st4 with session := { st4.session with
        progress := markLessonComplete st4.session.progress lesson.id } }
    with hst5
  have hst4li : getLessonP st4 li = some (g4 lp3) := by
    rw [hst4, getLessonP_updLessonP_same, h3li]
    rfl
  have hidg : (g4 lp3).lesson_id = lesson.id := by
    show lp3.lesson_id = lesson.id
    rw [hid3, hid]
  have hG2 : ∀ j, j ≠ li → getLessonP st2 j = getLessonP st j := by
    intro j hj
    show getLessonP (updLessonP st0 li gIn) j = _
    rw [getLessonP_updLessonP_other _ _ _ _ hj]
    rfl
  have hG4 : ∀ j, j ≠ li → getLessonP st4 j = getLessonP st3 j := by
    intro j hj
    rw [hst4, getLessonP_updLessonP_other _ _ _ _ hj]
  -- the packaged conclusions
  have hcourse5 : st5.session.course = st.session.course :=
    (show st5.session.course = st3.session.course from rfl).trans
      (hc3.trans (show st2.session.course = st.session.course from rfl))
  have hstate5 : st5.session.state = st.session.state :=
    (show st5.session.state = st3.session.state from rfl).trans
      (hs3.trans (show st2.session.state = st.session.state from rfl))
  have hlen4 : st4.session.progress.lesson_progress.length =
      st3.session.progress.lesson_progress.length := updLessonP_length st3 li g4
  have hlen5 : st5.session.progress.lesson_progress.length =
      st.session.progress.lesson_progress.length := by
    show (markLessonComplete st4.session.progress lesson.id
      ).lesson_progress.length = _
    rw [mark_length, hlen4, hlen3]
    show (modifyAt st.session.progress.lesson_progress li gIn).length = _
    rw [modifyAt_length]
  have hstat5li : (getLessonP st5 li).map (fun lp => lp.status) =
      some ProgressStatus.completed := by
    show ((markLessonComplete st4.session.progress lesson.id
      ).lesson_progress.get? li).map _ = _
    refine mark_status_completed_of st4.session.progress lesson.id li ?_
    show (getLessonP st4 li).map _ = _
    rw [hst4li]
    rfl
  have hIdLen5 : ∀ j, j ≠ li → (getLessonP st5 j).map
      (fun lp => (lp.lesson_id, lp.exercise_progress.length)) =
      (getLessonP st j).map
        (fun lp => (lp.lesson_id, lp.exercise_progress.length)) := by
    intro j hj
    have h54 : (getLessonP st5 j).map
        (fun lp => (lp.lesson_id, lp.exercise_progress.length)) =
        (getLessonP st4 j).map
          (fun lp => (lp.lesson_id, lp.exercise_progress.length)) :=
      idex_idlen _ _ (mark_get?_idlenex st4.session.progress lesson.id j)
    have h32 : (getLessonP st3 j).map lpShape = (getLessonP st j).map lpShape := by
      rw [hl3 j, hG2 j hj]
    rw [h54, hG4 j hj]
    exact shape_idlen _ _ h32
  have hStatHigher : ∀ j, li < j → (getLessonP st5 j).map (fun lp => lp.status) =
      (getLessonP st j).map (fun lp => lp.status) := by
    intro j hj
    have hne : j ≠ li := by omega
    have h54 : (getLessonP st5 j).map (fun lp => lp.status) =
        (getLessonP st4 j).map (fun lp => lp.status) :=
      mark_status_higher st4.session.progress lesson.id li (g4 lp3)
        hst4li hidg j hj
    have h32 : (getLessonP st3 j).map lpShape = (getLessonP st j).map lpShape := by
      rw [hl3 j, hG2 j hne]
    rw [h54, hG4 j hne]
    exact shape_status _ _ h32
  have hMono : ∀ j, (getLessonP st j).map (fun lp => lp.status) =
      some ProgressStatus.completed →
      (getLessonP st5 j).map (fun lp => lp.status) =
        some ProgressStatus.completed := by
    intro j hjc
    have hne : j ≠ li := by
      intro he
      subst he
      rw [hlp] at hjc
      simp at hjc
      exact hstat hjc
    have h32 : (getLessonP st3 j).map lpShape = (getLessonP st j).map lpShape := by
      rw [hl3 j, hG2 j hne]
    have h3c : (getLessonP st3 j).map (fun lp => lp.status) =
        some ProgressStatus.completed := by
      rw [shape_status _ _ h32]
      exact hjc
    have h4c : (getLessonP st4 j).map (fun lp => lp.status) =
        some ProgressStatus.completed := by
      rw [hG4 j hne]
      exact h3c
    exact mark_status_completed_of st4.session.progress lesson.id j h4c
  have hExOther : ∀ j ei2, j ≠ li → getExP st5 j ei2 = getExP st j ei2 := by
    intro j ei2 hj
    have h54 : getExP st5 j ei2 = getExP st4 j ei2 :=
      idex_exget _ _ ei2 (mark_get?_idlenex st4.session.progress lesson.id j)
    have h43 : getExP st4 j ei2 = getExP st3 j ei2 :=
      getExP_updLessonP st3 li g4 (fun lp => rfl) j ei2
    rw [h54, h43, ho3 j ei2 hj, hEx2]
  have hlp' : st.session.progress.lesson_progress.get? li = some lp0 := hlp
  by_cases hlast : li < st.session.course.lessons.length - 1
  · obtain ⟨c2, hc⟩ := hconts hlast
    subst hc
    refine ⟨st5, c2, ?_, Or.inl ⟨hlast, rfl⟩, hcourse5, hstate5, hlen5,
      hstat5li, hIdLen5, hStatHigher, hMono, hExOther⟩
    unfold processLesson
    dsimp only [getLessonP]
    rw [hles, hlp']
    dsimp only
    rw [if_neg hstat]
    split
    · rename_i stX ansX heq
      have hXY : ((LoopOutcome.finished : LoopOutcome), stX, ansX) =
          ((LoopOutcome.finished : LoopOutcome), st3, rest) :=
        heq.symm.trans hrun
      injection hXY with hO hP
      injection hP with hS hA
      subst hS
      subst hA
      split_ifs with hcond hcondI
      · exact rfl
      · exact absurd rfl hcondI
      · have hcond2 : ¬ li < st5.session.course.lessons.length - 1 := hcond
        rw [hcourse5] at hcond2
        exact absurd hlast hcond2
    · rename_i out stX ansX hne heq
      have hXY : (out, stX, ansX) =
          ((LoopOutcome.finished : LoopOutcome), st3, rest) :=
        heq.symm.trans hrun
      injection hXY with hO hP
      exact absurd hO hne
  · refine ⟨st5, conts, ?_, Or.inr ⟨hlast, rfl⟩, hcourse5, hstate5, hlen5,
      hstat5li, hIdLen5, hStatHigher, hMono, hExOther⟩
    unfold processLesson
    dsimp only [getLessonP]
    rw [hles, hlp']
    dsimp only
    rw [if_neg hstat]
    split
    · rename_i stX ansX heq
      have hXY : ((LoopOutcome.finished : LoopOutcome), stX, ansX) =
          ((LoopOutcome.finished : LoopOutcome), st3, rest) :=
        heq.symm.trans hrun
      injection hXY with hO hP
      injection hP with hS hA
      subst hS
      subst hA
      split_ifs with hcond
      · have hcond2 : li < st5.session.course.lessons.length - 1 := hcond
        rw [hcourse5] at hcond2
        exact absurd hcond2 hlast
      · exact rfl
    · rename_i out stX ansX hne heq
      have hXY : (out, stX, ansX) =
          ((LoopOutcome.finished : LoopOutcome), st3, rest) :=
        heq.symm.trans hrun
      injection hXY with hO hP
      exact absurd hO hne

theorem drop_eq_cons_of_get? (l : List α) (n : Nat) (x : α)
    (h : l.get? n = some x) : l.drop n = x :: l.drop (n + 1) := by
  induction l generalizing n with
  | nil => simp at h
  | cons a as ih =>
    cases n with
    | zero =>
      have hax : a = x := by simpa using h
      subst hax
      rfl
    | succ m =>
      rw [List.drop_succ_cons, ih m (by simpa using h)]
      rfl

theorem isCompletedC_of (p : CourseProgress) (hne : p.lesson_progress ≠ [])
    (h : ∀ j, j < p.lesson_progress.length →
      (p.lesson_progress.get? j).map (fun lp => lp.status) =
        some ProgressStatus.completed) :
    isCompletedC p = true := by
  unfold isCompletedC
  rw [Bool.and_eq_true]
  constructor
  · exact decide_eq_true hne
  · rw [List.all_eq_true]
    intro lp hmem
    obtain ⟨i, hi⟩ := List.mem_iff_get?.mp hmem
    have hlt : i < p.lesson_progress.length := by
      by_contra hge
      rw [List.get?_eq_none.mpr (by omega)] at hi
      exact Option.noConfusion hi
    have := h i hlt
    rw [hi] at this
    simp at this
    exact decide_eq_true this

/-- Running the lessons from index `li` on, when every earlier lesson is
    completed and every later lesson is fresh and exactly answerable,
    finishes with every lesson completed. -/
theorem runLessonsAux_all_good (oc : Oracles) (rem : Nat) :
    ∀ (li : Nat) (st : SMState) (rest : List Str) (crest : List Bool),
    rem = st.session.course.lessons.length - li →
    (∀ j lesson, st.session.course.lessons.get? j = some lesson →
      ∀ ex ∈ lesson.exercises, goodExercise ex) →
    (∀ j, j < li → (getLessonP st j).map (fun lp => lp.status) =
      some ProgressStatus.completed) →
    (∀ j lesson, li ≤ j → st.session.course.lessons.get? j = some lesson →
      ∃ lp, getLessonP st j = some lp ∧ lp.lesson_id = lesson.id ∧
        lp.status ≠ ProgressStatus.completed ∧
        (∀ k, k < lesson.exercises.length → ∃ p, getExP st j k = some p ∧
          p.status ≠ ProgressStatus.completed ∧
          p.status ≠ ProgressStatus.failed)) →
    ∃ stf, runLessonsAux oc rem li st
        (courseAnswersFrom st.session.course li ++ rest)
        (List.replicate (st.session.course.lessons.length - 1 - li) true ++
          crest) =
      (.finished, stf, rest, crest) ∧
      stf.session.course = st.session.course ∧
      stf.session.state = st.session.state ∧
      stf.session.progress.lesson_progress.length =
        st.session.progress.lesson_progress.length ∧
      (∀ j, j < st.session.course.lessons.length →
        (getLessonP stf j).map (fun lp => lp.status) =
          some ProgressStatus.completed) := by
  induction rem with
  | zero =>
    intro li st rest crest hrem hgoods hpre hsuf
    have hle : st.session.course.lessons.length ≤ li := by omega
    have hdrop : st.session.course.lessons.drop li = [] :=
      List.drop_eq_nil_of_le hle
    have hans : courseAnswersFrom st.session.course li = [] := by
      unfold courseAnswersFrom
      rw [hdrop]
      rfl
    have hrep : st.session.course.lessons.length - 1 - li = 0 := by omega
    refine ⟨st, ?_, rfl, rfl, rfl, fun j hj => hpre j (by omega)⟩
    rw [hans, hrep]
    rfl
  | succ rem ih =>
    intro li st rest crest hrem hgoods hpre hsuf
    have hlt : li < st.session.course.lessons.length := by omega
    obtain ⟨lesson, hles⟩ := Option.isSome_iff_exists.mp
      (get?_isSome_of_lt st.session.course.lessons li hlt)
    obtain ⟨lp0, hlp, hid, hstat, hget⟩ := hsuf li lesson (Nat.le_refl li) hles
    obtain ⟨st5, conts2, hPLeq, hdisj, hcourse5, hstate5, hlen5, hstat5li,
        hIdLen5, hStatHigher, hMono, hExOther⟩ :=
      processLesson_all_good oc li st lesson lp0
        (courseAnswersFrom st.session.course (li + 1) ++ rest)
        (List.replicate (st.session.course.lessons.length - 1 - li) true ++
          crest)
        hles hlp hstat hid hget (hgoods li lesson hles)
        (by
          intro h
          refine ⟨List.replicate
            (st.session.course.lessons.length - 1 - (li + 1)) true ++ crest,
            ?_⟩
          have hcnt : st.session.course.lessons.length - 1 - li =
              (st.session.course.lessons.length - 1 - (li + 1)) + 1 := by
            omega
          rw [hcnt, List.replicate_succ, List.cons_append])
    have hc2 : conts2 =
        List.replicate (st.session.course.lessons.length - 1 - (li + 1))
          true ++ crest := by
      rcases hdisj with ⟨h1, h2⟩ | ⟨h1, h2⟩
      · have hcnt : st.session.course.lessons.length - 1 - li =
            (st.session.course.lessons.length - 1 - (li + 1)) + 1 := by
          omega
        rw [hcnt, List.replicate_succ, List.cons_append] at h2
        exact (List.cons.injEq _ _ _ _ ▸ h2).2.symm
      · have hcnt1 : st.session.course.lessons.length - 1 - li = 0 := by omega
        have hcnt2 : st.session.course.lessons.length - 1 - (li + 1) = 0 := by
          omega
        rw [h2, hcnt1, hcnt2]
    -- invariants for the tail of the loop
    have hgoods' : ∀ j lesson2, st5.session.course.lessons.get? j =
        some lesson2 → ∀ ex ∈ lesson2.exercises, goodExercise ex := by
      rw [hcourse5]
      exact hgoods
    have hpre' : ∀ j, j < li + 1 → (getLessonP st5 j).map
        (fun lp => lp.status) = some ProgressStatus.completed := by
      intro j hj
      by_cases hji : j = li
      · subst hji
        exact hstat5li
      · exact hMono j (hpre j (by omega))
    have hsuf' : ∀ j lesson2, li + 1 ≤ j →
        st5.session.course.lessons.get? j = some lesson2 →
        ∃ lp, getLessonP st5 j = some lp ∧ lp.lesson_id = lesson2.id ∧
          lp.status ≠ ProgressStatus.completed ∧
          (∀ k, k < lesson2.exercises.length → ∃ p, getExP st5 j k = some p ∧
            p.status ≠ ProgressStatus.completed ∧
            p.status ≠ ProgressStatus.failed) := by
      intro j lesson2 hj hles2
      rw [hcourse5] at hles2
      obtain ⟨lp, hlpj, hidj, hstatj, hgetj⟩ :=
        hsuf j lesson2 (by omega) hles2
      have hne : j ≠ li := by omega
      have hidlen := hIdLen5 j hne
      rw [hlpj] at hidlen
      have hstatus := hStatHigher j (by omega)
      rw [hlpj] at hstatus
      cases h5j : getLessonP st5 j with
      | none => rw [h5j] at hidlen; simp at hidlen
      | some lp5 =>
        rw [h5j] at hidlen hstatus
        simp at hidlen hstatus
        refine ⟨lp5, rfl, by rw [hidlen.1, hidj], by rw [hstatus]; exact hstatj,
          ?_⟩
        intro k hk
        obtain ⟨p, hp, h1, h2⟩ := hgetj k hk
        exact ⟨p, by rw [hExOther j k hne]; exact hp, h1, h2⟩
    obtain ⟨stf, hIHeq, hfc, hfs, hfl, hfstat⟩ :=
      ih (li + 1) st5 rest crest (by rw [hcourse5]; omega) hgoods' hpre' hsuf'
    rw [hcourse5] at hIHeq
    -- assemble the run equation
    have hsplit : courseAnswersFrom st.session.course li ++ rest =
        lesson.exercises.map (fun ex => ex.expected_output.getD []) ++
          (courseAnswersFrom st.session.course (li + 1) ++ rest) := by
      unfold courseAnswersFrom
      rw [drop_eq_cons_of_get? _ _ _ hles]
      rw [List.map_cons]
      show (lessonAnswers lesson ++
          (List.map lessonAnswers
            (st.session.course.lessons.drop (li + 1))).join) ++ rest = _
      rw [List.append_assoc]
      rfl
    refine ⟨stf, ?_, hfc.trans hcourse5,
      hfs.trans hstate5, hfl.trans hlen5, ?_⟩
    · rw [hsplit]
      simp only [runLessonsAux]
      rw [hPLeq]
      dsimp only
      rw [hc2]
      exact hIHeq
    · intro j hj
      rw [← hcourse5] at hj
      exact hfstat j hj

/-- C3 (amended): a fresh session, run with every exercise answered by its
    exact expected output — each expected output non-empty after stripping,
    not backtick-wrapped and not a special command — and every continue
    prompt affirmed, goes from `active` to `completed`, and
    `is_completed()` is true afterwards. -/
theorem c3_amended_exact_answers_complete (oc : Oracles) (course : Course)
    (sid : Str) (llm : Bool)
    (hne : course.lessons ≠ [])
    (hexne : ∀ l ∈ course.lessons, l.exercises ≠ [])
    (hgood : ∀ l ∈ course.lessons, ∀ ex ∈ l.exercises, goodExercise ex) :
    (newSMState course sid llm).session.state = SessionState.active ∧
    (run oc (newSMState course sid llm) (courseAnswers course)
        (List.replicate (course.lessons.length - 1) true)).session.state =
      SessionState.completed ∧
    isCompletedC (run oc (newSMState course sid llm) (courseAnswers course)
        (List.replicate (course.lessons.length - 1) true)).session.progress =
      true := by
  classical
  set ST1 : SMState :=
    { session :=
        { newSession course sid with
            state := SessionState.active
            progress :=
              { (newSession course sid).progress with
                  status := ProgressStatus.in_progress
                  started_at :=
                    if (newSession course sid).progress.started_at = none
                    then some () else
                      (newSession course sid).progress.started_at } }
      simulator := Sim.initSim llm
      hint_count := 0
      saved := [] } with hST1
  have hgoods1 : ∀ (j : Nat) (lesson : Lesson),
      course.lessons.get? j = some lesson →
      ∀ ex ∈ lesson.exercises, goodExercise ex :=
    fun j lesson hj => hgood lesson (List.get?_mem hj)
  have hsuf1 : ∀ (j : Nat) (lesson : Lesson), 0 ≤ j →
      course.lessons.get? j = some lesson →
      ∃ lp, getLessonP ST1 j = some lp ∧ lp.lesson_id = lesson.id ∧
        lp.status ≠ ProgressStatus.completed ∧
        (∀ k, k < lesson.exercises.length → ∃ p, getExP ST1 j k = some p ∧
          p.status ≠ ProgressStatus.completed ∧
          p.status ≠ ProgressStatus.failed) := by
    intro j lesson _ hj
    have hlpj : getLessonP ST1 j = some (freshLP lesson) := by
      show (course.lessons.map freshLP).get? j = _
      rw [List.get?_map, hj]
      rfl
    refine ⟨freshLP lesson, hlpj, rfl, ?_, ?_⟩
    · exact fun h => ProgressStatus.noConfusion h
    · intro k hk
      obtain ⟨ex, hexk⟩ := Option.isSome_iff_exists.mp
        (get?_isSome_of_lt lesson.exercises k hk)
      refine ⟨freshEP ex, ?_, ?_, ?_⟩
      · show (getLessonP ST1 j).bind _ = _
        rw [hlpj]
        show (lesson.exercises.map freshEP).get? k = _
        rw [List.get?_map, hexk]
        rfl
      · exact fun h => ProgressStatus.noConfusion h
      · exact fun h => ProgressStatus.noConfusion h
  obtain ⟨stf, hrun, hfc, hfs, hfl, hfstat⟩ :=
    runLessonsAux_all_good oc course.lessons.length 0 ST1 [] []
      (show course.lessons.length = course.lessons.length - 0 by omega)
      hgoods1 (fun j hj => absurd hj (Nat.not_lt_zero j)) hsuf1
  rw [List.append_nil, List.append_nil] at hrun
  have hl1 : stf.session.progress.lesson_progress.length =
      course.lessons.length := by
    rw [hfl]
    show (course.lessons.map freshLP).length = _
    rw [List.length_map]
  have hcomp : isCompletedC stf.session.progress = true := by
    refine isCompletedC_of _ ?_ ?_
    · intro hnil
      rw [hnil] at hl1
      exact hne (List.eq_nil_of_length_eq_zero hl1.symm)
    · intro j hj
      rw [hl1] at hj
      exact hfstat j hj
  have hrl : runLessons oc ST1 (courseAnswers course)
      (List.replicate (course.lessons.length - 1) true) =
      (.finished, stf, [], []) := hrun
  have hrun_eq : run oc (newSMState course sid llm) (courseAnswers course)
      (List.replicate (course.lessons.length - 1) true) = runTail stf := by
    unfold run
    dsimp only
    split
    · rename_i st2 a c heq
      have h := heq.symm.trans hrl
      injection h with h1 _
      exact LoopOutcome.noConfusion h1
    · rename_i st2 a c heq
      have h := heq.symm.trans hrl
      injection h with h1 _
      exact LoopOutcome.noConfusion h1
    · rename_i out st2 a c hne1 hne2 heq
      have h := heq.symm.trans hrl
      injection h with h1 h2
      injection h2 with h3 h4
      subst h3
      rfl
  refine ⟨rfl, ?_, ?_⟩
  · rw [hrun_eq]
    unfold runTail saveProgress
    dsimp only
    rw [if_pos hcomp]
    rfl
  · rw [hrun_eq]
    unfold runTail saveProgress
    dsimp only
    rw [if_pos hcomp]
    exact hcomp

/-- C3 counterexample: with `expected_output = "quit"`, answering it with
    the exact expected output pauses the session instead of completing
    it, although the course is non-empty, every lesson has an exercise
    and every expected output is non-null. -/
theorem c3_counterexample_expected_output_quit :
    quitCourse.lessons ≠ [] ∧
    (∀ l ∈ quitCourse.lessons, l.exercises ≠ []) ∧
    (∀ l ∈ quitCourse.lessons, ∀ ex ∈ l.exercises,
      ex.expected_output ≠ none) ∧
    (run concreteOracles (newSMState quitCourse ("s".toList) false)
        (courseAnswers quitCourse)
        (List.replicate (quitCourse.lessons.length - 1) true)).session.state =
      SessionState.paused ∧
    (run concreteOracles (newSMState quitCourse ("s".toList) false)
        (courseAnswers quitCourse)
        (List.replicate (quitCourse.lessons.length - 1) true)).session.state ≠
      SessionState.completed ∧
    isCompletedC (run concreteOracles (newSMState quitCourse ("s".toList)
        false) (courseAnswers quitCourse)
        (List.replicate
          (quitCourse.lessons.length - 1) true)).session.progress = false := by
  decide

/-- Witness for the amended C3 at a concrete course: the `ok`-course run
    completes. -/
theorem c3_amended_exact_answers_complete_witness :
    (newSMState w3Course ("s".toList) false).session.state =
      SessionState.active ∧
    (run concreteOracles (newSMState w3Course ("s".toList) false)
        (courseAnswers w3Course)
        (List.replicate (w3Course.lessons.length - 1) true)).session.state =
      SessionState.completed ∧
    isCompletedC (run concreteOracles (newSMState w3Course ("s".toList)
        false) (courseAnswers w3Course)
        (List.replicate (w3Course.lessons.length - 1) true)).session.progress =
      true := by
  refine c3_amended_exact_answers_complete concreteOracles w3Course
    ("s".toList) false (by decide) ?_ ?_
  · intro l hl
    have hl2 : l = w3Lesson := by simpa [w3Course] using hl
    subst hl2
    decide
  · intro l hl ex hex
    have hl2 : l = w3Lesson := by simpa [w3Course] using hl
    subst hl2
    have hex2 : ex = w3Ex := by simpa [w3Lesson] using hex
    subst hex2
    exact ⟨"ok".toList, rfl, by decide⟩

/-- C4: entering `quit` (or `exit`) at the answer prompt leaves the
    current exercise's attempt counter untouched, pauses the session and
    pushes the paused session to the persistence log before the loop
    returns. -/
theorem c4_quit_pauses_preserves_attempts (oc : Oracles) (ex : Exercise)
    (li ei : Nat) (st : SMState) (q : Str) (rest : List Str)
    (hq : plower (processAnswer q) = "quit".toList ∨
      plower (processAnswer q) = "exit".toList) :
    ∃ st2, runExercise oc ex li ei st (q :: rest) = (.quitEx, st2, rest) ∧
      (getExP st2 li ei).map (fun p => p.attempts) =
        (getExP st li ei).map (fun p => p.attempts) ∧
      st2.session.state = SessionState.paused ∧
      st2.saved = st2.session :: st.saved := by
  have hmem : plower (processAnswer q) ∈ specialCommands := by
    rcases hq with h | h <;> rw [h] <;> decide
  set updX : SMState := updExP { st with hint_count := 0 } li ei
    (fun e => { e with status := ProgressStatus.in_progress }) with hupdX
  refine ⟨saveProgress { updX with session := pauseS updX.session },
    ?_, ?_, ?_, ?_⟩
  · unfold runExercise
    simp only [runExerciseLoop]
    rw [if_pos hmem, if_pos hq]
  · show ((getExP updX li ei).map (fun p => p.attempts)) = _
    rw [hupdX, getExP_updExP_same, getExP_setHint]
    cases getExP st li ei with
    | none => rfl
    | some p => rfl
  · rfl
  · rfl

/-- Witness for C4 at a concrete exercise and state. -/
theorem c4_quit_pauses_preserves_attempts_witness :
    ∃ st2, runExercise concreteOracles w3Ex 0 0
        (newSMState w3Course ("s".toList) false) ("quit".toList :: []) =
      (.quitEx, st2, []) ∧
      (getExP st2 0 0).map (fun p => p.attempts) =
        (getExP (newSMState w3Course ("s".toList) false) 0 0).map
          (fun p => p.attempts) ∧
      st2.session.state = SessionState.paused ∧
      st2.saved = st2.session ::
        (newSMState w3Course ("s".toList) false).saved :=
  c4_quit_pauses_preserves_attempts concreteOracles w3Ex 0 0
    (newSMState w3Course ("s".toList) false) ("quit".toList) []
    (Or.inl (by decide))

/-- C2: entering `skip` at an exercise prompt marks that exercise
    `failed`, and with every remaining exercise of the lesson answered by
    its exact expected output the lesson still reaches `completed`.
    `exsA` are the exercises already settled before the skipped one. -/
theorem c2_skip_marks_failed_lesson_completes (oc : Oracles) (li : Nat)
    (st : SMState) (lesson : Lesson) (lp0 : LessonProgress)
    (exsA : List Exercise) (ex : Exercise) (exsB : List Exercise)
    (rest : List Str) (conts : List Bool)
    (hles : st.session.course.lessons.get? li = some lesson)
    (hsplitEx : lesson.exercises = exsA ++ ex :: exsB)
    (hlp : getLessonP st li = some lp0)
    (hstat : lp0.status ≠ ProgressStatus.completed)
    (hid : lp0.lesson_id = lesson.id)
    (hdone : ∀ j, j < exsA.length → ∃ p, getExP st li j = some p ∧
      (p.status = ProgressStatus.completed ∨
        p.status = ProgressStatus.failed))
    (hfresh : ∀ j, exsA.length ≤ j → j < lesson.exercises.length →
      ∃ p, getExP st li j = some p ∧
        p.status ≠ ProgressStatus.completed ∧
        p.status ≠ ProgressStatus.failed)
    (hgood : ∀ e2 ∈ exsB, goodExercise e2)
    (hconts : li < st.session.course.lessons.length - 1 →
      ∃ c2, conts = true :: c2) :
    ∃ st5 conts2,
      processLesson oc li st
          ("skip".toList ::
            (exsB.map (fun e2 => e2.expected_output.getD []) ++ rest))
          conts =
        (.finished, st5, rest, conts2) ∧
      (getExP st5 li exsA.length).map (fun p => p.status) =
        some ProgressStatus.failed ∧
      (getLessonP st5 li).map (fun lp => lp.status) =
        some ProgressStatus.completed := by
  classical
  set st0 : SMState :=
    { st with session := { st.session with progress :=
        { st.session.progress with current_lesson_index := li } } } with hst0
  set gIn : LessonProgress → LessonProgress := fun l =>
    { l with status := ProgressStatus.in_progress,
             started_at := if l.started_at = none then some () else l.started_at }
    with hgIn
  set st1 : SMState := updLessonP st0 li gIn with hst1
  set st2 : SMState :=
    { st1 with session := { st1.session with
        current_lesson_id := some lesson.id } } with hst2
  have hEx2 : ∀ li2 ei2, getExP st2 li2 ei2 = getExP st li2 ei2 := by
    intro li2 ei2
    show getExP (updLessonP st0 li gIn) li2 ei2 = getExP st li2 ei2
    rw [getExP_updLessonP st0 li gIn (fun lp => rfl) li2 ei2, hst0]
    rfl
  have hlenEx : lesson.exercises.length = exsA.length + exsB.length + 1 := by
    rw [hsplitEx]
    simp [List.length_append]
    omega
  have hdone2 : ∀ j, j < exsA.length → ∃ p, getExP st2 li (0 + j) = some p ∧
      (p.status = ProgressStatus.completed ∨
        p.status = ProgressStatus.failed) := by
    intro j hj
    obtain ⟨p, hp, hs⟩ := hdone j hj
    exact ⟨p, by rw [Nat.zero_add, hEx2]; exact hp, hs⟩
  have hfresh2 : ∀ j, j < (ex :: exsB).length → ∃ p,
      getExP st2 li (exsA.length + j) = some p ∧
      p.status ≠ ProgressStatus.completed ∧
      p.status ≠ ProgressStatus.failed := by
    intro j hj
    have hj2 : j < exsB.length + 1 := hj
    obtain ⟨p, hp, h1, h2⟩ := hfresh (exsA.length + j) (by omega) (by omega)
    exact ⟨p, by rw [hEx2]; exact hp, h1, h2⟩
  obtain ⟨st3, hrunskip, hframe, hstatfail⟩ :=
    runLessonExercisesAux_skip_then_good oc li ex exsB exsA.length st2 rest
      hfresh2 hgood
  obtain ⟨hc3, hs3, hi3, ho3, hl3, hlen3⟩ := hframe
  have hrun : runLessonExercisesAux oc li lesson.exercises 0 st2
      ("skip".toList ::
        (exsB.map (fun e2 => e2.expected_output.getD []) ++ rest)) =
      (.finished, st3, rest) := by
    rw [hsplitEx,
      runLessonExercisesAux_passes_done oc li exsA (ex :: exsB) 0 st2 _
        hdone2, Nat.zero_add]
    exact hrunskip
  -- shape of the lesson progress at `li` after the exercise loop
  have hlp2 : getLessonP st2 li = some (gIn lp0) := by
    show getLessonP (updLessonP st0 li gIn) li = _
    rw [getLessonP_updLessonP_same]
    have hlp0 : getLessonP st0 li = some lp0 := hlp
    rw [hlp0]
    rfl
  have hl3li := hl3 li
  rw [hlp2] at hl3li
  cases h3li : getLessonP st3 li with
  | none => rw [h3li] at hl3li; simp at hl3li
  | some lp3 =>
  rw [h3li] at hl3li
  have hshape3 : lpShape lp3 = lpShape (gIn lp0) := by simpa using hl3li
  have hid3 : lp3.lesson_id = lp0.lesson_id := congrArg Prod.fst hshape3
  set g4 : LessonProgress → LessonProgress := fun l =>
    { l with status := ProgressStatus.completed, completed_at := some () }
    with hg4
  set st4 : SMState := updLessonP st3 li g4 with hst4
  set st5 : SMState :=
    { st4 with session := { st4.session with
        progress := markLessonComplete st4.session.progress lesson.id } }
    with hst5
  have hst4li : getLessonP st4 li = some (g4 lp3) := by
    rw [hst4, getLessonP_updLessonP_same, h3li]
    rfl
  have hcourse5 : st5.session.course = st.session.course :=
    (show st5.session.course = st3.session.course from rfl).trans
      (hc3.trans (show st2.session.course = st.session.course from rfl))
  have hstat5li : (getLessonP st5 li).map (fun lp => lp.status) =
      some ProgressStatus.completed := by
    show ((markLessonComplete st4.session.progress lesson.id
      ).lesson_progress.get? li).map _ = _
    refine mark_status_completed_of st4.session.progress lesson.id li ?_
    show (getLessonP st4 li).map _ = _
    rw [hst4li]
    rfl
  have hfail5 : (getExP st5 li exsA.length).map (fun p => p.status) =
      some ProgressStatus.failed := by
    have h54 : getExP st5 li exsA.length = getExP st4 li exsA.length :=
      idex_exget _ _ exsA.length
        (mark_get?_idlenex st4.session.progress lesson.id li)
    have h43 : getExP st4 li exsA.length = getExP st3 li exsA.length :=
      getExP_updLessonP st3 li g4 (fun lp => rfl) li exsA.length
    rw [h54, h43]
    exact hstatfail
  have hlp' : st.session.progress.lesson_progress.get? li = some lp0 := hlp
  by_cases hlast : li < st.session.course.lessons.length - 1
  · obtain ⟨c2, hc⟩ := hconts hlast
    subst hc
    refine ⟨st5, c2, ?_, hfail5, hstat5li⟩
    unfold processLesson
    dsimp only [getLessonP]
    rw [hles, hlp']
    dsimp only
    rw [if_neg hstat]
    split
    · rename_i stX ansX heq
      have hXY : ((LoopOutcome.finished : LoopOutcome), stX, ansX) =
          ((LoopOutcome.finished : LoopOutcome), st3, rest) :=
        heq.symm.trans hrun
      injection hXY with hO hP
      injection hP with hS hA
      subst hS
      subst hA
      split_ifs with hcond hcondI
      · exact rfl
      · exact absurd rfl hcondI
      · have hcond2 : ¬ li < st5.session.course.lessons.length - 1 := hcond
        rw [hcourse5] at hcond2
        exact absurd hlast hcond2
    · rename_i out stX ansX hne heq
      have hXY : (out, stX, ansX) =
          ((LoopOutcome.finished : LoopOutcome), st3, rest) :=
        heq.symm.trans hrun
      injection hXY with hO hP
      exact absurd hO hne
  · refine ⟨st5, conts, ?_, hfail5, hstat5li⟩
    unfold processLesson
    dsimp only [getLessonP]
    rw [hles, hlp']
    dsimp only
    rw [if_neg hstat]
    split
    · rename_i stX ansX heq
      have hXY : ((LoopOutcome.finished : LoopOutcome), stX, ansX) =
          ((LoopOutcome.finished : LoopOutcome), st3, rest) :=
        heq.symm.trans hrun
      injection hXY with hO hP
      injection hP with hS hA
      subst hS
      subst hA
      split_ifs with hcond
      · have hcond2 : li < st5.session.course.lessons.length - 1 := hcond
        rw [hcourse5] at hcond2
        exact absurd hcond2 hlast
      · exact rfl
    · rename_i out stX ansX hne heq
      have hXY : (out, stX, ansX) =
          ((LoopOutcome.finished : LoopOutcome), st3, rest) :=
        heq.symm.trans hrun
      injection hXY with hO hP
      exact absurd hO hne

/-- Witness for C2: skipping the first exercise of a fresh two-exercise
    lesson and answering the second exactly. -/
theorem c2_skip_marks_failed_lesson_completes_witness :
    ∃ st5 conts2,
      processLesson concreteOracles 0
          (newSMState c2Course ("s".toList) false)
          ("skip".toList :: ("ok".toList :: [])) [] =
        (.finished, st5, [], conts2) ∧
      (getExP st5 0 0).map (fun p => p.status) =
        some ProgressStatus.failed ∧
      (getLessonP st5 0).map (fun lp => lp.status) =
        some ProgressStatus.completed := by
  refine c2_skip_marks_failed_lesson_completes concreteOracles 0
    (newSMState c2Course ("s".toList) false) c2Lesson (freshLP c2Lesson)
    [] c2Ex1 [c2Ex2] [] [] rfl rfl rfl (by decide) rfl
    (fun j hj => absurd hj (Nat.not_lt_zero j)) ?_ ?_ ?_
  · intro j _ hj
    have hj2 : j < 2 := hj
    rcases (show j = 0 ∨ j = 1 by omega) with rfl | rfl
    · exact ⟨freshEP c2Ex1, rfl, by decide, by decide⟩
    · exact ⟨freshEP c2Ex2, rfl, by decide, by decide⟩
  · intro e2 he2
    have he : e2 = c2Ex2 := by simpa using he2
    subst he
    exact ⟨"ok".toList, rfl, by decide⟩
  · intro h
    exact absurd h (by decide)

end Session

end Skillforge
